import Mathlib

/-!
Verification of the minesweeper repository (game.py, minesweeper.py,
minesweeper_game.py).  The grid, cell and session state and all player-facing
operations are embedded as executable Lean definitions; mutation of the Python
objects becomes functional update, the recursive flood fill is given explicit
fuel (with a proof that the fuel bound of the source's recursion depth
suffices), and `random.shuffle` becomes an explicit list parameter standing
for the shuffle's outcome.
-/

namespace Mines

/-- Positions are pairs of integers, as in the Python source (tuples `(x, y)`). -/
abbrev Pos := Int × Int

/-- Cell state, from `Item` in minesweeper_game.py.  All fields start
false / zero (`Item.__init__`). -/
structure Item where
  mine : Bool := false
  clear : Bool := false
  flag : Bool := false
  adjacent_mines : Nat := 0
deriving DecidableEq

/-- Grid from minesweeper.py: dimensions plus backing storage of `w*h` cells,
cell `(x, y)` stored at index `x * h + y` (`Grid._get_index`). -/
structure Grid where
  w : Nat
  h : Nat
  cells : List Item
deriving DecidableEq

/-- `key in grid` from minesweeper.py (`Grid.__contains__`):
`0 <= x < w and 0 <= y < h`. -/
def Grid.containsB (g : Grid) (p : Pos) : Bool :=
  decide (0 ≤ p.1) && decide (p.1 < (g.w : Int)) && decide (0 ≤ p.2) && decide (p.2 < (g.h : Int))

/-- `Grid._get_index`: `x * self.h + y`. -/
def Grid.idx (g : Grid) (p : Pos) : Nat :=
  (p.1 * (g.h : Int) + p.2).toNat

/-- `Grid.__getitem__`.  Out-of-bounds access is an assertion failure in the
source; every caller stays in bounds, and we return the default item there. -/
def Grid.get (g : Grid) (p : Pos) : Item :=
  if g.containsB p then g.cells.getD (g.idx p) {} else {}

/-- `Grid.__setitem__` (and in-place mutation of a cell's fields).
Out-of-bounds writes, an assertion failure in the source, leave the grid
unchanged here. -/
def Grid.set (g : Grid) (p : Pos) (v : Item) : Grid :=
  if g.containsB p then { g with cells := g.cells.set (g.idx p) v } else g

/-- The eight relative offsets of `Grid.neighbors`, in source order. -/
def neighborOffsets : List Pos :=
  [(-1, -1), (0, -1), (1, -1), (-1, 0), (1, 0), (-1, 1), (0, 1), (1, 1)]

/-- `Grid.neighbors`: the in-bounds positions among the eight offsets,
in source order. -/
def Grid.neighbors (g : Grid) (p : Pos) : List Pos :=
  (neighborOffsets.map fun r => (p.1 + r.1, p.2 + r.2)).filter fun q => g.containsB q

/-- All grid positions, x-major then y, as iterated by the placement loops
(`range(w)` outer, `range(h)` inner). -/
def allPositions (w h : Nat) : List Pos :=
  (List.range w).flatMap fun x => (List.range h).map fun (y : Nat) => ((x : Int), (y : Int))

/-- The backing list has exactly `w * h` cells (`Grid.__init__`). -/
def Grid.Wf (g : Grid) : Prop :=
  g.cells.length = g.w * g.h

/-- `sum(1 for n in grid.neighbors(npos) if grid[n].mine)`. -/
def countMineNbrs (g : Grid) (p : Pos) : Nat :=
  (g.neighbors p).countP fun n => (g.get n).mine

/-- `sum(1 for p in grid.neighbors(pos) if grid[p].flag)`. -/
def countFlaggedNbrs (g : Grid) (p : Pos) : Nat :=
  (g.neighbors p).countP fun n => (g.get n).flag

/-- Number of cells not yet cleared; the measure bounding the flood-fill
recursion depth. -/
def uncleared (g : Grid) : Nat :=
  g.cells.countP fun it => !it.clear

/-- Number of cells whose `flag` field is true. -/
def countFlags (g : Grid) : Nat :=
  g.cells.countP fun it => it.flag

/-- `all(item.clear or item.mine for item in self.grid)` — the win test. -/
def allClearOrMine (g : Grid) : Bool :=
  g.cells.all fun it => it.clear || it.mine

/-- Every non-mine cell's `adjacent_mines` equals its true count of mine
neighbors (the state `place_mines` establishes). -/
def ConsistentCounts (g : Grid) : Prop :=
  ∀ p ∈ allPositions g.w g.h,
    (g.get p).mine = false → (g.get p).adjacent_mines = countMineNbrs g p

/-- `Grid(w, h, default = Item)`: `w * h` fresh cells. -/
def freshGrid (w h : Nat) : Grid :=
  ⟨w, h, List.replicate (w * h) {}⟩

/-- The session state of `MinesweeperGame` (the fields the game logic reads
and writes; wall-clock fields are omitted, and the input-grab stack of the
framework is tracked by its depth `grabCount`). -/
structure GameState where
  grid : Grid
  cursor : Pos
  flags_placed : Int
  total_mines : Nat
  placed_mines : Bool
  paused : Bool
  stopped : Bool
  won : Bool
  queue_redraw : Bool
  grabCount : Nat
  highlighted_cells : Finset Pos
deriving DecidableEq

/-- `game_over`: stop as lost, grab input for the stopped screen, redraw. -/
def game_over (s : GameState) : GameState :=
  { s with stopped := true, won := false, grabCount := s.grabCount + 1, queue_redraw := true }

/-- The mine auto-flag loop of `game_won`:
`for item in self.grid: if item.mine: item.flag = True`. -/
def flagMines (g : Grid) : Grid :=
  { g with cells := g.cells.map fun it => if it.mine then { it with flag := true } else it }

/-- `game_won`: stop as won, grab input, flag every mine, redraw. -/
def game_won (s : GameState) : GameState :=
  { s with stopped := true, won := true, grabCount := s.grabCount + 1,
           grid := flagMines s.grid, queue_redraw := true }

/-- `highlight_cells`: replace the highlight set and request a redraw
(the wall-clock expiry timestamp is not modeled). -/
def highlight_cells (s : GameState) (cells : Finset Pos) : GameState :=
  { s with highlighted_cells := cells, queue_redraw := true }

/-- `flag_cell`: no-op on a cleared cell, else toggle the flag and adjust
`flags_placed` by plus or minus one. -/
def flag_cell (s : GameState) (pos : Pos) : GameState :=
  let item := s.grid.get pos
  if item.clear then s
  else
    { s with
      flags_placed := if item.flag then s.flags_placed - 1 else s.flags_placed + 1,
      grid := s.grid.set pos { item with flag := !item.flag },
      queue_redraw := true }

/-- The flag-counter bookkeeping that actually holds of the session: outside
won games `flags_placed` equals the number of flagged cells; in a won game
(stopped and won) the mine auto-flag may push the number of flagged cells
above the counter, which is not adjusted. -/
def FlagInv (s : GameState) : Prop :=
  (¬(s.stopped = true ∧ s.won = true) → s.flags_placed = (countFlags s.grid : Int)) ∧
  (s.stopped = true ∧ s.won = true → s.flags_placed ≤ (countFlags s.grid : Int))

/-- The mutation block of `do_clear_cell`: mark the cell cleared, and if it
was flagged remove the flag and decrement `flags_placed`. -/
def clearStep (s : GameState) (pos : Pos) : GameState :=
  { s with
    grid := s.grid.set pos { s.grid.get pos with clear := true, flag := false },
    flags_placed := if (s.grid.get pos).flag then s.flags_placed - 1 else s.flags_placed }

/-- `do_clear_cell` with explicit fuel bounding the recursion depth: clear the
cell (removing its flag and decrementing the flag counter if it was flagged,
the `clearStep` above), and if its `adjacent_mines` is zero recurse into every
neighbor.  An already cleared cell is the base case.  The source asserts
`item.mine is False` on entry (a development-time check); the assertion is not
modeled.  `none` means the fuel ran out before the recursion bottomed out. -/
def do_clear_cellF : Nat → GameState → Pos → Option GameState
  | 0, _, _ => none
  | fuel + 1, s, pos =>
    if (s.grid.get pos).clear then some s
    else if (s.grid.get pos).adjacent_mines = 0 then
      ((clearStep s pos).grid.neighbors pos).foldlM
        (fun sc n => do_clear_cellF fuel sc n) (clearStep s pos)
    else
      some (clearStep s pos)

/-- `do_clear_cell`: run the flood fill with fuel `uncleared + 1`, which is
proved sufficient below (`do_clear_cellF_terminates`). -/
def do_clear_cell (s : GameState) (pos : Pos) : GameState :=
  (do_clear_cellF (uncleared s.grid + 1) s pos).getD s

/-- One iteration of the neighbor-clearing loop in `clear_neighbors`:
skip everything once the game has stopped (the source's `break`), and call
`clear_cell` only on a neighbor that is neither cleared nor flagged. -/
def chord_stepGo (rec : GameState → Pos → GameState) (sc : GameState) (n : Pos) : GameState :=
  if sc.stopped then sc
  else if !((sc.grid.get n).clear || (sc.grid.get n).flag) then rec sc n
  else sc

/-- `clear_neighbors`, parameterized by the recursive `clear_cell` call:
nothing happens unless the cell is cleared; with flag count equal to
`adjacent_mines` clear the unflagged uncleared neighbors in order, otherwise
highlight the relevant neighbor set. -/
def clear_neighborsGo (rec : GameState → Pos → GameState) (s : GameState) (pos : Pos) :
    GameState :=
  let item := s.grid.get pos
  if !item.clear then s
  else
    let flags := countFlaggedNbrs s.grid pos
    if flags = item.adjacent_mines then
      (s.grid.neighbors pos).foldl (chord_stepGo rec) s
    else if flags < item.adjacent_mines then
      highlight_cells s
        ((s.grid.neighbors pos).filter fun p =>
          !(s.grid.get p).flag && !(s.grid.get p).clear).toFinset
    else
      highlight_cells s
        ((s.grid.neighbors pos).filter fun p =>
          (s.grid.get p).flag && !(s.grid.get p).clear).toFinset

/-- `clear_cell` for a game whose mines are already placed, indexed by the
depth of `clear_cell`/`clear_neighbors` alternations.  The chord branch
(`item.clear`) re-enters `clear_cell` only on neighbors that are not cleared,
so depth 2 fully evaluates every call from the key handler; the depth-0
fallback is unreachable from the entry points. -/
def clear_cellD : Nat → GameState → Pos → GameState
  | 0, s, _ => s
  | d + 1, s, pos =>
    let item := s.grid.get pos
    if item.flag then s
    else if item.clear then clear_neighborsGo (clear_cellD d) s pos
    else if item.mine then game_over s
    else
      let s1 := do_clear_cell s pos
      let s2 := if allClearOrMine s1.grid then game_won s1 else s1
      { s2 with queue_redraw := true }

/-- `clear_neighbors` as called from `clear_cell`. -/
def clear_neighbors (s : GameState) (pos : Pos) : GameState :=
  clear_neighborsGo (clear_cellD 1) s pos

/-- `clear_cell` after the lazy mine placement has happened. -/
def clear_cell_placed (s : GameState) (pos : Pos) : GameState :=
  clear_cellD 2 s pos

/-- The candidate set of `place_mines`: every position, minus the clicked
position, minus its in-bounds neighbors (`possible.remove`). -/
def mineCandidates (g : Grid) (pos : Pos) : Finset Pos :=
  ((allPositions g.w g.h).toFinset.erase pos) \ (g.neighbors pos).toFinset

/-- The mine-marking loop body of `place_mines`: `grid[ipos].mine = True`. -/
def mark_mine (sc : GameState) (ipos : Pos) : GameState :=
  { sc with grid := sc.grid.set ipos { sc.grid.get ipos with mine := true } }

/-- The recount loop body of `place_mines`: for a non-mine cell, store the
count of its mine neighbors in `adjacent_mines`. -/
def recount_adjacent (sc : GameState) (npos : Pos) : GameState :=
  if (sc.grid.get npos).mine then sc
  else
    { sc with grid :=
        sc.grid.set npos { sc.grid.get npos with adjacent_mines := countMineNbrs sc.grid npos } }

/-- `place_mines(pos, n)`.  `plist` stands for the result of
`random.shuffle(list(possible))`; theorems quantify over every `plist` that
enumerates the candidate set.  The boolean result records whether the
`len(possible) < n` exception was raised, which in the source happens before
any mutation.  Mine marking and the adjacent-count recomputation loop follow
the source; marking sets only `mine`, and the recount skips mine cells. -/
def place_mines (s : GameState) (pos : Pos) (n : Nat) (plist : List Pos) : GameState × Bool :=
  if (mineCandidates s.grid pos).card < n then (s, true)
  else
    let s1 := (plist.take n).foldl mark_mine s
    let s2 := (allPositions s1.grid.w s1.grid.h).foldl recount_adjacent s1
    ({ s2 with placed_mines := true }, false)

/-- `clear_cell`: place mines lazily on the first clear (propagating the
placement exception, with the session unchanged as in the source), then
no-op on a flagged cell, chord on a cleared cell, lose on a mine, else flood
fill and check the win condition. -/
def clear_cell (s : GameState) (pos : Pos) (plist : List Pos) : GameState × Bool :=
  let pm := if !s.placed_mines then place_mines s pos s.total_mines plist else (s, false)
  if pm.2 then pm
  else (clear_cell_placed pm.1 pos, false)

/-- Board configuration (the source fixes `GRID_SIZE = (32, 16)` and
`GRID_MINES = 100` as module constants; theorems quantify over the
configuration). -/
structure Config where
  w : Nat
  h : Nat
  mines : Nat

/-- `start_game`: fresh grid, centered cursor, zeroed counters.  Note the
source does not reset `won` here. -/
def start_game (cfg : Config) (s : GameState) : GameState :=
  { s with paused := false, stopped := false,
           grid := freshGrid cfg.w cfg.h,
           cursor := (((cfg.w / 2 : Nat) : Int), ((cfg.h / 2 : Nat) : Int)),
           flags_placed := 0, total_mines := cfg.mines,
           placed_mines := false, highlighted_cells := ∅ }

/-- `new_game`: `start_game` then request a redraw. -/
def new_game (cfg : Config) (s : GameState) : GameState :=
  { start_game cfg s with queue_redraw := true }

/-- The session right after construction and the initial `start_game`
(`Game.__init__` leaves `won` unset; it is modeled as false, and is never
read before being set). -/
def new_session (cfg : Config) : GameState :=
  start_game cfg
    { grid := freshGrid cfg.w cfg.h, cursor := (0, 0), flags_placed := 0,
      total_mines := cfg.mines, placed_mines := false, paused := false,
      stopped := false, won := false, queue_redraw := true, grabCount := 0,
      highlighted_cells := ∅ }

/-- Session states reachable from a new game by the player-facing operations.
Flag and clear actions happen only while the game is running (when stopped,
the grab stack makes those bindings inert) and only at in-bounds positions
(the cursor never leaves the grid); the clear step quantifies over every
outcome `plist` of the random shuffle. -/
inductive Reachable (cfg : Config) : GameState → Prop
  | init : Reachable cfg (new_session cfg)
  | flag {s : GameState} {pos : Pos} : Reachable cfg s → s.stopped = false →
      s.grid.containsB pos = true → Reachable cfg (flag_cell s pos)
  | clear {s : GameState} {pos : Pos} {plist : List Pos} : Reachable cfg s →
      s.stopped = false → s.grid.containsB pos = true →
      Reachable cfg (clear_cell s pos plist).1
  | newg {s : GameState} : Reachable cfg s → Reachable cfg (new_game cfg s)

/-- The set of positions the flood fill started at `src` visits: `src`
itself, plus every neighbor of a visited cell that was uncleared with a zero
`adjacent_mines` count.  All fields refer to the grid before the fill. -/
inductive Reach (g : Grid) (src : Pos) : Pos → Prop
  | refl : Reach g src src
  | step {p n : Pos} : Reach g src p → (g.get p).clear = false →
      (g.get p).adjacent_mines = 0 → n ∈ g.neighbors p → Reach g src n

/-- Modelled from the spec's words: the maximal connected zero-adjacent-mine
region through `src`, i.e. the connected component of `src` in the graph of
uncleared cells with `adjacent_mines = 0`. -/
inductive ZeroRegion (g : Grid) (src : Pos) : Pos → Prop
  | refl : ZeroRegion g src src
  | step {p n : Pos} : ZeroRegion g src p → n ∈ g.neighbors p →
      (g.get n).clear = false → (g.get n).adjacent_mines = 0 → ZeroRegion g src n

/-- Modelled from the spec's words: the one-cell border of the zero region —
every neighbor of a region cell. -/
def ZeroBorder (g : Grid) (src q : Pos) : Prop :=
  ∃ p, ZeroRegion g src p ∧ q ∈ g.neighbors p

/-- State changes common to every flood-fill run (`do_clear_cellF`): the
board geometry, mines and counts are untouched, cleared cells stay exactly as
they were, cells left uncleared are untouched, newly cleared cells come out
unflagged, the flag ledger (`flags_placed` minus the number of flagged cells)
is preserved, and no session field outside the grid and the flag counter
changes. -/
structure Frame (s r : GameState) : Prop where
  w_eq : r.grid.w = s.grid.w
  h_eq : r.grid.h = s.grid.h
  len_eq : r.grid.cells.length = s.grid.cells.length
  mine_eq : ∀ q, (r.grid.get q).mine = (s.grid.get q).mine
  adj_eq : ∀ q, (r.grid.get q).adjacent_mines = (s.grid.get q).adjacent_mines
  clear_keep : ∀ q, (s.grid.get q).clear = true → r.grid.get q = s.grid.get q
  unclear_keep : ∀ q, (r.grid.get q).clear = false → r.grid.get q = s.grid.get q
  new_unflag : ∀ q, (r.grid.get q).clear = true →
    (s.grid.get q).clear = true ∨ (r.grid.get q).flag = false
  uncleared_le : uncleared r.grid ≤ uncleared s.grid
  ledger : r.flags_placed - (countFlags r.grid : Int) =
    s.flags_placed - (countFlags s.grid : Int)
  cursor_eq : r.cursor = s.cursor
  total_eq : r.total_mines = s.total_mines
  placed_eq : r.placed_mines = s.placed_mines
  paused_eq : r.paused = s.paused
  stopped_eq : r.stopped = s.stopped
  won_eq : r.won = s.won
  redraw_eq : r.queue_redraw = s.queue_redraw
  grab_eq : r.grabCount = s.grabCount
  hl_eq : r.highlighted_cells = s.highlighted_cells

/-- Framework state from game.py (`Game`): the fields the input-grab
machinery touches, over an abstract game-specific state `σ`.  The message is
tracked by presence and by whether an expiry is pending. -/
structure Fw (σ : Type) where
  inner : σ
  hasMessage : Bool
  hasMessageTimeout : Bool
  queue_redraw : Bool
deriving DecidableEq

/-- An input-grab callback: receives the input character code and the state,
returns the new state and `true` to keep the grab / `false` to be popped. -/
def Handler (σ : Type) : Type :=
  Int → Fw σ → Fw σ × Bool

/-- `clear_message`. -/
def clear_message {σ : Type} (s : Fw σ) : Fw σ :=
  { s with hasMessage := false, hasMessageTimeout := false, queue_redraw := true }

/-- `set_message(msg, None)`: message shown with no expiry, as used by
`prompt_confirmation`. -/
def set_message_forever {σ : Type} (s : Fw σ) : Fw σ :=
  { s with hasMessage := true, hasMessageTimeout := false, queue_redraw := true }

/-- `confirm_callback`: on `'y'` (code 121) invoke the callback, then clear
the message; in every case return `False` so the handler pops. -/
def confirm_callback {σ : Type} (cb : Fw σ → Fw σ) : Handler σ :=
  fun ch s => (clear_message (if ch = 121 then cb s else s), false)

/-- `grab_input`: push a handler (the top of the stack is the list's last
element, as in the Python list used as a LIFO). -/
def grab_input {σ : Type} (stack : List (Handler σ)) (cb : Handler σ) : List (Handler σ) :=
  stack ++ [cb]

/-- `prompt_confirmation`: show the `(y/n)` message and push the
confirmation handler. -/
def prompt_confirmation {σ : Type} (stack : List (Handler σ)) (cb : Fw σ → Fw σ) (s : Fw σ) :
    List (Handler σ) × Fw σ :=
  (grab_input stack (confirm_callback cb), set_message_forever s)

/-- `handle_input`: `-1` means no input arrived.  If the grab stack is
non-empty the top handler consumes the key and is popped when it returns
`False`; otherwise the key's binding fires, if any. -/
def handle_input {σ : Type} (keyCb : Int → Option (Fw σ → Fw σ))
    (stack : List (Handler σ)) (ch : Int) (s : Fw σ) : List (Handler σ) × Fw σ :=
  if ch = -1 then (stack, s)
  else
    match stack.getLast? with
    | some cb =>
      let r := cb ch s
      (if r.2 then stack else stack.dropLast, r.1)
    | none =>
      match keyCb ch with
      | some f => (stack, f s)
      | none => (stack, s)

/-! ### Concrete boards used as examples -/

/-- A session state around a given grid, with mines considered placed. -/
def mkState (g : Grid) : GameState :=
  { grid := g, cursor := (0, 0), flags_placed := 0, total_mines := 0, placed_mines := true,
    paused := false, stopped := false, won := false, queue_redraw := false, grabCount := 0,
    highlighted_cells := ∅ }

/-- Fresh 3 by 1 board, one mine to be placed. -/
def exC1 : GameState :=
  { mkState (freshGrid 3 1) with placed_mines := false, total_mines := 1 }

/-- 3 by 1 board, no mines, the right cell flagged. -/
def exC2 : GameState :=
  mkState ⟨3, 1, [{}, {}, { flag := true }]⟩

/-- 3 by 1 board: cleared middle cell with one adjacent mine on the right. -/
def exC3 : GameState :=
  mkState ⟨3, 1, [{}, { clear := true, adjacent_mines := 1 }, { mine := true }]⟩

/-- 2 by 1 board with one mine; clearing the left cell wins. -/
def exC4 : GameState :=
  mkState ⟨2, 1, [{ adjacent_mines := 1 }, { mine := true }]⟩

/-- The 3 by 1, one-mine configuration used to exercise a full game. -/
def cfgC5 : Config :=
  ⟨3, 1, 1⟩

/-- Fresh 2 by 2 board: placing a mine after clicking a corner must fail,
because the safe zone covers the whole board. -/
def exC6 : GameState :=
  { mkState (freshGrid 2 2) with placed_mines := false }

/-- Single-cell board whose cell is flagged. -/
def exC7f : GameState :=
  mkState ⟨1, 1, [{ flag := true }]⟩

/-- Single-cell fresh board. -/
def exC7 : GameState :=
  mkState (freshGrid 1 1)

/-- Fresh 2 by 1 board for exercising the flood fill. -/
def exC8 : GameState :=
  mkState (freshGrid 2 1)

/-- 2 by 1 board with a mine on the right, mines placed. -/
def exC10 : GameState :=
  mkState ⟨2, 1, [{ adjacent_mines := 1 }, { mine := true }]⟩

/-! ### Grid infrastructure lemmas -/

lemma containsB_iff {g : Grid} {p : Pos} :
    g.containsB p = true ↔ 0 ≤ p.1 ∧ p.1 < (g.w : Int) ∧ 0 ≤ p.2 ∧ p.2 < (g.h : Int) := by
  simp [Grid.containsB, and_assoc]

lemma containsB_congr {g g' : Grid} (hw : g.w = g'.w) (hh : g.h = g'.h) (p : Pos) :
    g.containsB p = g'.containsB p := by
  simp [Grid.containsB, hw, hh]

lemma idx_eq {g : Grid} {p : Pos} (h : g.containsB p = true) :
    g.idx p = p.1.toNat * g.h + p.2.toNat := by
  obtain ⟨h1, _, h3, _⟩ := containsB_iff.mp h
  have hcast : ((p.1.toNat * g.h + p.2.toNat : Nat) : Int) = p.1 * (g.h : Int) + p.2 := by
    push_cast [Int.toNat_of_nonneg h1, Int.toNat_of_nonneg h3]
    ring
  unfold Grid.idx
  rw [← hcast, Int.toNat_natCast]

lemma toNat_bounds {g : Grid} {p : Pos} (h : g.containsB p = true) :
    p.1.toNat < g.w ∧ p.2.toNat < g.h := by
  obtain ⟨h1, h2, h3, h4⟩ := containsB_iff.mp h
  omega

lemma idx_lt {g : Grid} {p : Pos} (hWf : g.Wf) (h : g.containsB p = true) :
    g.idx p < g.cells.length := by
  obtain ⟨hx, hy⟩ := toNat_bounds h
  rw [idx_eq h, hWf]
  calc p.1.toNat * g.h + p.2.toNat < p.1.toNat * g.h + g.h := by omega
    _ = (p.1.toNat + 1) * g.h := by ring
    _ ≤ g.w * g.h := Nat.mul_le_mul_right _ (by omega)

lemma idx_inj {g : Grid} {p q : Pos} (hp : g.containsB p = true) (hq : g.containsB q = true)
    (h : g.idx p = g.idx q) : p = q := by
  rw [idx_eq hp, idx_eq hq] at h
  obtain ⟨_, hpy⟩ := toNat_bounds hp
  obtain ⟨_, hqy⟩ := toNat_bounds hq
  have hh : 0 < g.h := by omega
  have hx : p.1.toNat = q.1.toNat := by
    have := congrArg (· / g.h) h
    simpa [Nat.mul_comm, Nat.mul_add_div hh, Nat.div_eq_of_lt hpy, Nat.div_eq_of_lt hqy]
      using this
  have hy : p.2.toNat = q.2.toNat := by
    rw [hx] at h
    omega
  obtain ⟨hp1, _, hp3, _⟩ := containsB_iff.mp hp
  obtain ⟨hq1, _, hq3, _⟩ := containsB_iff.mp hq
  have e1 : p.1 = q.1 := by omega
  have e2 : p.2 = q.2 := by omega
  exact Prod.ext e1 e2

@[simp] lemma set_w (g : Grid) (p : Pos) (v : Item) : (g.set p v).w = g.w := by
  unfold Grid.set
  split <;> rfl

@[simp] lemma set_h (g : Grid) (p : Pos) (v : Item) : (g.set p v).h = g.h := by
  unfold Grid.set
  split <;> rfl

@[simp] lemma set_length (g : Grid) (p : Pos) (v : Item) :
    (g.set p v).cells.length = g.cells.length := by
  unfold Grid.set
  split <;> simp

@[simp] lemma containsB_set (g : Grid) (p : Pos) (v : Item) (q : Pos) :
    (g.set p v).containsB q = g.containsB q :=
  containsB_congr (set_w g p v) (set_h g p v) q

@[simp] lemma idx_set (g : Grid) (p : Pos) (v : Item) (q : Pos) :
    (g.set p v).idx q = g.idx q := by
  unfold Grid.idx
  rw [set_h]

lemma Wf_set (g : Grid) (p : Pos) (v : Item) (h : g.Wf) : (g.set p v).Wf := by
  unfold Grid.Wf at *
  simp [h]

lemma get_oob {g : Grid} {q : Pos} (h : g.containsB q = false) : g.get q = {} := by
  unfold Grid.get
  simp [h]

lemma set_cells_of_containsB {g : Grid} {p : Pos} (h : g.containsB p = true) (v : Item) :
    (g.set p v).cells = g.cells.set (g.idx p) v := by
  unfold Grid.set
  simp [h]

lemma get_set_self {g : Grid} {p : Pos} (v : Item) (hWf : g.Wf) (h : g.containsB p = true) :
    (g.set p v).get p = v := by
  unfold Grid.get
  rw [containsB_set, if_pos h, idx_set, set_cells_of_containsB h,
    List.getD_eq_getElem?_getD, List.getElem?_set_self (idx_lt hWf h)]
  rfl

lemma get_set_ne {g : Grid} {p q : Pos} (v : Item) (h : q ≠ p) :
    (g.set p v).get q = g.get q := by
  by_cases hp : g.containsB p = true
  · by_cases hq : g.containsB q = true
    · unfold Grid.get
      rw [containsB_set, if_pos hq, if_pos hq, idx_set, set_cells_of_containsB hp,
        List.getD_eq_getElem?_getD, List.getD_eq_getElem?_getD,
        List.getElem?_set_ne (fun hi => h (idx_inj hq hp hi.symm))]
    · rw [get_oob (by simp [hq]), get_oob (by simp_all)]
  · unfold Grid.set
    rw [if_neg hp]

lemma get_set_cases (g : Grid) (p : Pos) (v : Item) (q : Pos) :
    (g.set p v).get q = g.get q ∨ ((g.set p v).get q = v ∧ q = p) := by
  by_cases hqp : q = p
  · subst hqp
    by_cases hq : g.containsB q = true
    · by_cases hl : g.idx q < g.cells.length
      · right
        refine ⟨?_, rfl⟩
        unfold Grid.get
        rw [containsB_set, if_pos hq, idx_set, set_cells_of_containsB hq,
          List.getD_eq_getElem?_getD, List.getElem?_set_self hl]
        rfl
      · left
        unfold Grid.set
        rw [if_pos hq, List.set_eq_of_length_le (by omega)]
    · left
      unfold Grid.set
      rw [if_neg hq]
  · exact Or.inl (get_set_ne v hqp)

lemma neighbors_congr {g g' : Grid} (hw : g.w = g'.w) (hh : g.h = g'.h) (p : Pos) :
    g.neighbors p = g'.neighbors p := by
  unfold Grid.neighbors
  congr 1
  funext q
  exact containsB_congr hw hh q

@[simp] lemma neighbors_set (g : Grid) (p : Pos) (v : Item) (q : Pos) :
    (g.set p v).neighbors q = g.neighbors q :=
  neighbors_congr (set_w g p v) (set_h g p v) q

lemma containsB_of_mem_neighbors {g : Grid} {p n : Pos} (h : n ∈ g.neighbors p) :
    g.containsB n = true := by
  unfold Grid.neighbors at h
  exact (List.mem_filter.mp h).2

lemma mem_allPositions {w h : Nat} {p : Pos} :
    p ∈ allPositions w h ↔ 0 ≤ p.1 ∧ p.1 < (w : Int) ∧ 0 ≤ p.2 ∧ p.2 < (h : Int) := by
  unfold allPositions
  rw [List.mem_flatMap]
  constructor
  · rintro ⟨x, hx, hmem⟩
    rw [List.mem_map] at hmem
    obtain ⟨y, hy, rfl⟩ := hmem
    rw [List.mem_range] at hx
    rw [List.mem_range] at hy
    refine ⟨?_, ?_, ?_, ?_⟩ <;> dsimp only <;> omega
  · rintro ⟨h1, h2, h3, h4⟩
    refine ⟨p.1.toNat, List.mem_range.mpr (by omega), ?_⟩
    rw [List.mem_map]
    refine ⟨p.2.toNat, List.mem_range.mpr (by omega), ?_⟩
    rw [Int.toNat_of_nonneg h1, Int.toNat_of_nonneg h3]

lemma mem_allPositions_iff_containsB {g : Grid} {p : Pos} :
    p ∈ allPositions g.w g.h ↔ g.containsB p = true := by
  rw [mem_allPositions, containsB_iff]

lemma allPositions_map_idx (w h : Nat) :
    (allPositions w h).map (fun p => (p.1 * (h : Int) + p.2).toNat) = List.range (w * h) := by
  induction w with
  | zero => simp [allPositions]
  | succ w ih =>
    unfold allPositions at ih ⊢
    rw [List.range_succ, List.flatMap_append, List.map_append, ih, List.flatMap_singleton,
      List.map_map, Nat.succ_mul, List.range_add]
    congr 1

lemma length_allPositions (w h : Nat) : (allPositions w h).length = w * h := by
  have := congrArg List.length (allPositions_map_idx w h)
  simpa using this

lemma nodup_allPositions (w h : Nat) : (allPositions w h).Nodup := by
  apply List.Nodup.of_map (fun p : Pos => (p.1 * (h : Int) + p.2).toNat)
  rw [allPositions_map_idx]
  exact List.nodup_range _

lemma countP_eq_countP_range (l : List Item) (P : Item → Bool) :
    l.countP P = (List.range l.length).countP fun i => P (l.getD i {}) := by
  induction l with
  | nil => simp
  | cons a t ih =>
    rw [List.length_cons, List.range_succ_eq_map, List.countP_cons, List.countP_cons,
      List.countP_map]
    have : ((fun i => P ((a :: t).getD i {})) ∘ Nat.succ) = fun i => P (t.getD i {}) := by
      funext i
      simp
    rw [this, ← ih]
    simp [Nat.add_comm]

lemma countP_cells {g : Grid} (hWf : g.Wf) (P : Item → Bool) :
    g.cells.countP P = (allPositions g.w g.h).countP fun p => P (g.get p) := by
  rw [countP_eq_countP_range, hWf, ← allPositions_map_idx g.w g.h, List.countP_map]
  apply List.countP_congr
  intro p hp
  have hc : g.containsB p = true := mem_allPositions_iff_containsB.mp hp
  simp only [Function.comp_apply, Grid.get, Grid.idx, if_pos hc]

lemma countP_set_list (l : List Item) (i : Nat) (v : Item) (P : Item → Bool) (h : i < l.length) :
    (l.set i v).countP P + (if P (l.getD i {}) then 1 else 0) =
      l.countP P + (if P v then 1 else 0) := by
  induction l generalizing i with
  | nil => simp at h
  | cons a t ih =>
    cases i with
    | zero => simp [List.countP_cons]; omega
    | succ i =>
      rw [List.set_cons_succ, List.countP_cons, List.countP_cons, List.getD_cons_succ]
      have := ih i (by simpa using h)
      omega

/-! ### Frame properties of the flood fill -/

lemma frame_refl (s : GameState) : Frame s s :=
  ⟨rfl, rfl, rfl, fun _ => rfl, fun _ => rfl, fun _ _ => rfl, fun _ _ => rfl,
   fun _ h => Or.inl h, le_refl _, rfl, rfl, rfl, rfl, rfl, rfl, rfl, rfl, rfl, rfl⟩

lemma frame_trans {s t r : GameState} (h1 : Frame s t) (h2 : Frame t r) : Frame s r := by
  refine ⟨h2.w_eq.trans h1.w_eq, h2.h_eq.trans h1.h_eq, h2.len_eq.trans h1.len_eq,
    fun q => (h2.mine_eq q).trans (h1.mine_eq q),
    fun q => (h2.adj_eq q).trans (h1.adj_eq q), ?_, ?_, ?_,
    le_trans h2.uncleared_le h1.uncleared_le, h2.ledger.trans h1.ledger,
    h2.cursor_eq.trans h1.cursor_eq, h2.total_eq.trans h1.total_eq,
    h2.placed_eq.trans h1.placed_eq, h2.paused_eq.trans h1.paused_eq,
    h2.stopped_eq.trans h1.stopped_eq, h2.won_eq.trans h1.won_eq,
    h2.redraw_eq.trans h1.redraw_eq, h2.grab_eq.trans h1.grab_eq,
    h2.hl_eq.trans h1.hl_eq⟩
  · intro q hq
    have e1 := h1.clear_keep q hq
    have e2 := h2.clear_keep q (by rw [e1]; exact hq)
    rw [e2, e1]
  · intro q hq
    have ht : (t.grid.get q).clear = false := by
      by_contra hc
      have e2 := h2.clear_keep q (by revert hc; cases (t.grid.get q).clear <;> simp)
      rw [e2] at hq
      revert hc hq
      cases (t.grid.get q).clear <;> simp
    rw [h2.unclear_keep q hq, h1.unclear_keep q ht]
  · intro q hq
    by_cases ht : (t.grid.get q).clear = true
    · rcases h1.new_unflag q ht with hs | hf
      · exact Or.inl hs
      · right
        rw [h2.clear_keep q ht, hf]
    · rcases h2.new_unflag q hq with hs | hf
      · exact absurd hs ht
      · exact Or.inr hf

lemma get_eq_getD {g : Grid} {p : Pos} (h : g.containsB p = true) :
    g.get p = g.cells.getD (g.idx p) {} := by
  unfold Grid.get
  rw [if_pos h]

lemma frame_clearStep (s : GameState) (pos : Pos) (h : (s.grid.get pos).clear = false) :
    Frame s (clearStep s pos) := by
  set v : Item := { s.grid.get pos with clear := true, flag := false } with hv
  have hgrid : (clearStep s pos).grid = s.grid.set pos v := rfl
  constructor
  case w_eq => rw [hgrid, set_w]
  case h_eq => rw [hgrid, set_h]
  case len_eq => rw [hgrid, set_length]
  case mine_eq =>
    intro q
    rcases get_set_cases s.grid pos v q with hc | ⟨hc, rfl⟩
    · rw [hgrid, hc]
    · rw [hgrid, hc, hv]
  case adj_eq =>
    intro q
    rcases get_set_cases s.grid pos v q with hc | ⟨hc, rfl⟩
    · rw [hgrid, hc]
    · rw [hgrid, hc, hv]
  case clear_keep =>
    intro q hq
    have hne : q ≠ pos := fun he => by rw [he, h] at hq; cases hq
    rw [hgrid, get_set_ne v hne]
  case unclear_keep =>
    intro q hq
    rw [hgrid] at hq ⊢
    rcases get_set_cases s.grid pos v q with hc | ⟨hc, rfl⟩
    · exact hc
    · rw [hc] at hq
      cases hq
  case new_unflag =>
    intro q hq
    rw [hgrid] at hq ⊢
    rcases get_set_cases s.grid pos v q with hc | ⟨hc, rfl⟩
    · rw [hc] at hq ⊢
      exact Or.inl hq
    · rw [hc]
      exact Or.inr rfl
  case uncleared_le =>
    unfold uncleared
    rw [hgrid]
    by_cases hcB : s.grid.containsB pos = true
    · rw [set_cells_of_containsB hcB]
      by_cases hl : s.grid.idx pos < s.grid.cells.length
      · have hkey := countP_set_list s.grid.cells (s.grid.idx pos) v (fun it => !it.clear) hl
        rw [← get_eq_getD hcB] at hkey
        have e1 : (fun it : Item => !it.clear) (s.grid.get pos) = true := by simp [h]
        have e2 : (fun it : Item => !it.clear) v = false := by simp [hv]
        rw [e1, e2] at hkey
        simp at hkey
        omega
      · rw [List.set_eq_of_length_le (by omega)]
    · unfold Grid.set
      rw [if_neg hcB]
  case ledger =>
    unfold countFlags
    have hfp : (clearStep s pos).flags_placed =
        if (s.grid.get pos).flag then s.flags_placed - 1 else s.flags_placed := rfl
    by_cases hcB : s.grid.containsB pos = true
    · by_cases hl : s.grid.idx pos < s.grid.cells.length
      · have hkey := countP_set_list s.grid.cells (s.grid.idx pos) v (fun it => it.flag) hl
        rw [← get_eq_getD hcB] at hkey
        have e2 : (fun it : Item => it.flag) v = false := by simp [hv]
        rw [e2] at hkey
        rw [hgrid, set_cells_of_containsB hcB, hfp]
        by_cases hf : (s.grid.get pos).flag = true
        · simp only [hf] at hkey ⊢
          simp at hkey ⊢
          omega
        · simp only [hf] at hkey ⊢
          simp at hkey ⊢
          rw [hkey]
      · have hfd : (s.grid.get pos).flag = false := by
          rw [get_eq_getD hcB, List.getD_eq_default _ _ (by omega)]
        rw [hgrid, set_cells_of_containsB hcB, List.set_eq_of_length_le (by omega), hfp, hfd]
        simp
    · have hcB' : s.grid.containsB pos = false := by
        revert hcB; cases s.grid.containsB pos <;> simp
      have hfd : (s.grid.get pos).flag = false := by rw [get_oob hcB']
      have hsame : s.grid.set pos v = s.grid := by unfold Grid.set; rw [if_neg hcB]
      rw [hgrid, hsame, hfp, hfd]
      simp
  case cursor_eq => rfl
  case total_eq => rfl
  case placed_eq => rfl
  case paused_eq => rfl
  case stopped_eq => rfl
  case won_eq => rfl
  case redraw_eq => rfl
  case grab_eq => rfl
  case hl_eq => rfl

lemma foldlM_option_rel {α : Type} {R : GameState → GameState → Prop}
    (hrefl : ∀ s, R s s)
    (htrans : ∀ a b c, R a b → R b c → R a c)
    {F : GameState → α → Option GameState}
    (hstep : ∀ gc a r, F gc a = some r → R gc r) :
    ∀ (l : List α) (g r : GameState), List.foldlM F g l = some r → R g r := by
  intro l
  induction l with
  | nil =>
    intro g r h
    rw [List.foldlM_nil] at h
    cases h
    exact hrefl _
  | cons a t ih =>
    intro g r h
    rw [List.foldlM_cons] at h
    rcases Option.bind_eq_some.mp h with ⟨g1, hF, hfold⟩
    exact htrans _ _ _ (hstep g a g1 hF) (ih g1 r hfold)

lemma frame_dccF : ∀ (fuel : Nat) (s : GameState) (pos : Pos) (r : GameState),
    do_clear_cellF fuel s pos = some r → Frame s r := by
  intro fuel
  induction fuel with
  | zero =>
    intro s pos r h
    cases h
  | succ fuel ih =>
    intro s pos r h
    rw [do_clear_cellF] at h
    by_cases hc : (s.grid.get pos).clear = true
    · rw [if_pos hc] at h
      cases h
      exact frame_refl _
    · have hc' : (s.grid.get pos).clear = false := by
        revert hc; cases (s.grid.get pos).clear <;> simp
      rw [if_neg hc] at h
      have hstep := frame_clearStep s pos hc'
      by_cases ha : (s.grid.get pos).adjacent_mines = 0
      · rw [if_pos ha] at h
        exact frame_trans hstep
          (foldlM_option_rel frame_refl (fun _ _ _ => frame_trans)
            (fun gc n r' hr' => ih gc n r' hr') _ _ _ h)
      · rw [if_neg ha] at h
        cases h
        exact hstep


/-! ### Termination of the flood fill -/

lemma Wf_of_frame {s r : GameState} (h : Frame s r) (hWf : s.grid.Wf) : r.grid.Wf := by
  unfold Grid.Wf at *
  rw [h.len_eq, h.w_eq, h.h_eq]
  exact hWf

lemma get_mem_cells {g : Grid} {p : Pos} (hWf : g.Wf) (hp : g.containsB p = true) :
    g.get p ∈ g.cells := by
  rw [get_eq_getD hp, List.getD_eq_getElem _ _ (idx_lt hWf hp)]
  exact List.getElem_mem _

lemma uncleared_pos {s : GameState} {pos : Pos} (hWf : s.grid.Wf)
    (hpos : s.grid.containsB pos = true) (hc : (s.grid.get pos).clear = false) :
    0 < uncleared s.grid := by
  unfold uncleared
  rw [List.countP_pos]
  exact ⟨s.grid.get pos, get_mem_cells hWf hpos, by simp [hc]⟩

lemma uncleared_clearStep {s : GameState} {pos : Pos} (hWf : s.grid.Wf)
    (hpos : s.grid.containsB pos = true) (hc : (s.grid.get pos).clear = false) :
    uncleared (clearStep s pos).grid + 1 = uncleared s.grid := by
  set v : Item := { s.grid.get pos with clear := true, flag := false } with hv
  have hl : s.grid.idx pos < s.grid.cells.length := idx_lt hWf hpos
  have hkey := countP_set_list s.grid.cells (s.grid.idx pos) v (fun it => !it.clear) hl
  rw [← get_eq_getD hpos] at hkey
  have e1 : (fun it : Item => !it.clear) (s.grid.get pos) = true := by simp [hc]
  have e2 : (fun it : Item => !it.clear) v = false := by simp [hv]
  rw [e1, e2] at hkey
  simp at hkey
  have hgrid : (clearStep s pos).grid = s.grid.set pos v := rfl
  unfold uncleared
  rw [hgrid, set_cells_of_containsB hpos]
  omega

lemma dccF_some : ∀ (B : Nat) (s : GameState) (pos : Pos), s.grid.Wf →
    s.grid.containsB pos = true → uncleared s.grid ≤ B →
    ∃ r, do_clear_cellF (B + 1) s pos = some r := by
  intro B
  induction B using Nat.strong_induction_on with
  | _ B ih =>
    intro s pos hWf hpos hB
    rw [do_clear_cellF]
    by_cases hc : (s.grid.get pos).clear = true
    · rw [if_pos hc]
      exact ⟨s, rfl⟩
    · have hc' : (s.grid.get pos).clear = false := by
        revert hc; cases (s.grid.get pos).clear <;> simp
      rw [if_neg hc]
      have hfr1 := frame_clearStep s pos hc'
      have hWf1 : (clearStep s pos).grid.Wf := Wf_of_frame hfr1 hWf
      have hdec := uncleared_clearStep hWf hpos hc'
      have hB1 : 0 < B := lt_of_lt_of_le (uncleared_pos hWf hpos hc') hB
      by_cases ha : (s.grid.get pos).adjacent_mines = 0
      · rw [if_pos ha]
        obtain ⟨B', rfl⟩ : ∃ B', B = B' + 1 := ⟨B - 1, by omega⟩
        have hfold : ∀ (l : List Pos), (∀ n ∈ l, (clearStep s pos).grid.containsB n = true) →
            ∀ gc : GameState, gc.grid.Wf → gc.grid.w = (clearStep s pos).grid.w →
            gc.grid.h = (clearStep s pos).grid.h → uncleared gc.grid ≤ B' →
            ∃ r, l.foldlM (fun sc n => do_clear_cellF (B' + 1) sc n) gc = some r := by
          intro l
          induction l with
          | nil =>
            intro _ gc _ _ _ _
            exact ⟨gc, rfl⟩
          | cons a t iht =>
            intro hmem gc hWfc hw hh hunc
            rw [List.foldlM_cons]
            have hca : gc.grid.containsB a = true := by
              rw [containsB_congr hw hh]
              exact hmem a (List.mem_cons_self a t)
            obtain ⟨g1, hg1⟩ := ih B' (by omega) gc a hWfc hca hunc
            have hfr := frame_dccF _ _ _ _ hg1
            obtain ⟨r2, hr2⟩ := iht (fun n hn => hmem n (List.mem_cons_of_mem a hn)) g1
              (Wf_of_frame hfr hWfc) (hfr.w_eq.trans hw) (hfr.h_eq.trans hh)
              (le_trans hfr.uncleared_le hunc)
            refine ⟨r2, ?_⟩
            rw [hg1]
            exact hr2
        exact hfold _ (fun n hn => containsB_of_mem_neighbors hn) (clearStep s pos)
          hWf1 rfl rfl (by omega)
      · rw [if_neg ha]
        exact ⟨clearStep s pos, rfl⟩

lemma foldlM_option_mono {F G : GameState → Pos → Option GameState}
    (hFG : ∀ gc n r, F gc n = some r → G gc n = some r) :
    ∀ (l : List Pos) (g r : GameState), l.foldlM F g = some r → l.foldlM G g = some r := by
  intro l
  induction l with
  | nil =>
    intro g r h
    exact h
  | cons a t ih =>
    intro g r h
    rw [List.foldlM_cons] at h ⊢
    rcases Option.bind_eq_some.mp h with ⟨g1, hF, hfold⟩
    rw [hFG _ _ _ hF]
    exact ih g1 r hfold

lemma dccF_mono : ∀ (fuel : Nat) (s : GameState) (pos : Pos) (r : GameState),
    do_clear_cellF fuel s pos = some r → do_clear_cellF (fuel + 1) s pos = some r := by
  intro fuel
  induction fuel with
  | zero =>
    intro s pos r h
    cases h
  | succ fuel ih =>
    intro s pos r h
    rw [do_clear_cellF] at h ⊢
    by_cases hc : (s.grid.get pos).clear = true
    · rw [if_pos hc] at h ⊢
      exact h
    · rw [if_neg hc] at h ⊢
      by_cases ha : (s.grid.get pos).adjacent_mines = 0
      · rw [if_pos ha] at h ⊢
        exact foldlM_option_mono (fun gc n r' h' => ih gc n r' h') _ _ _ h
      · rw [if_neg ha] at h ⊢
        exact h

lemma dccF_mono_le {fuel fuel' : Nat} (hle : fuel ≤ fuel') {s : GameState} {pos : Pos}
    {r : GameState} (h : do_clear_cellF fuel s pos = some r) :
    do_clear_cellF fuel' s pos = some r := by
  induction fuel' with
  | zero =>
    have h0 : fuel = 0 := by omega
    subst h0
    exact h
  | succ fuel' ih =>
    by_cases he : fuel = fuel' + 1
    · subst he
      exact h
    · exact dccF_mono _ _ _ _ (ih (by omega))

lemma do_clear_cell_eq_dccF {s : GameState} {pos : Pos} {r : GameState}
    (h : do_clear_cellF (uncleared s.grid + 1) s pos = some r) :
    do_clear_cell s pos = r := by
  unfold do_clear_cell
  rw [h]
  rfl

/-! ### The reach set of the flood fill -/

lemma reach_trans {g : Grid} {src p q : Pos} (h1 : Reach g src p) (h2 : Reach g p q) :
    Reach g src q := by
  induction h2 with
  | refl => exact h1
  | step _ hc ha hn ihs => exact Reach.step ihs hc ha hn

lemma reach_of_frame {s gc : GameState} (hfr : Frame s gc) {a q : Pos}
    (h : Reach gc.grid a q) : Reach s.grid a q := by
  induction h with
  | refl => exact Reach.refl
  | @step p n _ hc ha hn ihs =>
    have hcs : (s.grid.get p).clear = false := by
      rw [← hfr.unclear_keep p hc]
      exact hc
    have has : (s.grid.get p).adjacent_mines = 0 := by
      rw [← hfr.adj_eq p]
      exact ha
    have hns : n ∈ s.grid.neighbors p := by
      rw [neighbors_congr hfr.w_eq.symm hfr.h_eq.symm p]
      exact hn
    exact Reach.step ihs hcs has hns

lemma dccF_sound : ∀ (fuel : Nat) (s : GameState) (pos : Pos) (r : GameState),
    do_clear_cellF fuel s pos = some r →
    ∀ q, (r.grid.get q).clear = true → (s.grid.get q).clear = true ∨ Reach s.grid pos q := by
  intro fuel
  induction fuel with
  | zero =>
    intro s pos r h
    cases h
  | succ fuel ih =>
    intro s pos r h
    rw [do_clear_cellF] at h
    by_cases hc : (s.grid.get pos).clear = true
    · rw [if_pos hc] at h
      cases h
      intro q hq
      exact Or.inl hq
    · have hc' : (s.grid.get pos).clear = false := by
        revert hc; cases (s.grid.get pos).clear <;> simp
      rw [if_neg hc] at h
      have hgrid : (clearStep s pos).grid =
          s.grid.set pos { s.grid.get pos with clear := true, flag := false } := rfl
      have hbase : ∀ q, ((clearStep s pos).grid.get q).clear = true →
          (s.grid.get q).clear = true ∨ Reach s.grid pos q := by
        intro q hq
        rw [hgrid] at hq
        rcases get_set_cases s.grid pos { s.grid.get pos with clear := true, flag := false } q
          with hcc | ⟨hcc, rfl⟩
        · left
          rw [hcc] at hq
          exact hq
        · right
          exact Reach.refl
      by_cases ha : (s.grid.get pos).adjacent_mines = 0
      · rw [if_pos ha] at h
        have hnbrs : (clearStep s pos).grid.neighbors pos = s.grid.neighbors pos := by
          rw [hgrid, neighbors_set]
        rw [hnbrs] at h
        have hfold : ∀ (l : List Pos), (∀ n ∈ l, n ∈ s.grid.neighbors pos) →
            ∀ gc : GameState, Frame s gc →
            (∀ q, (gc.grid.get q).clear = true → (s.grid.get q).clear = true ∨ Reach s.grid pos q) →
            ∀ r', l.foldlM (fun sc n => do_clear_cellF fuel sc n) gc = some r' →
            ∀ q, (r'.grid.get q).clear = true →
              (s.grid.get q).clear = true ∨ Reach s.grid pos q := by
          intro l
          induction l with
          | nil =>
            intro _ gc _ hinv r' hf q hq
            cases hf
            exact hinv q hq
          | cons a t iht =>
            intro hsub gc hfrc hinv r' hf q hq
            rw [List.foldlM_cons] at hf
            rcases Option.bind_eq_some.mp hf with ⟨g1, hg1, hfold1⟩
            have hfr1 : Frame gc g1 := frame_dccF _ _ _ _ hg1
            refine iht (fun n hn => hsub n (List.mem_cons_of_mem a hn)) g1
              (frame_trans hfrc hfr1) ?_ r' hfold1 q hq
            intro q' hq'
            rcases ih gc a g1 hg1 q' hq' with hgc | hreach
            · exact hinv q' hgc
            · right
              have hra : Reach s.grid pos a :=
                Reach.step Reach.refl hc' ha (hsub a (List.mem_cons_self a t))
              exact reach_trans hra (reach_of_frame hfrc hreach)
        exact hfold _ (fun n hn => hn) (clearStep s pos) (frame_clearStep s pos hc') hbase r h
      · rw [if_neg ha] at h
        cases h
        exact hbase

lemma dccF_closed : ∀ (fuel : Nat) (s : GameState) (pos : Pos) (r : GameState),
    do_clear_cellF fuel s pos = some r → s.grid.Wf →
    ((s.grid.containsB pos = true → (r.grid.get pos).clear = true) ∧
     (∀ q n, (r.grid.get q).clear = true → (s.grid.get q).clear = false →
       (s.grid.get q).adjacent_mines = 0 → n ∈ s.grid.neighbors q →
       (r.grid.get n).clear = true)) := by
  intro fuel
  induction fuel with
  | zero =>
    intro s pos r h _
    cases h
  | succ fuel ih =>
    intro s pos r h hWf
    rw [do_clear_cellF] at h
    by_cases hc : (s.grid.get pos).clear = true
    · rw [if_pos hc] at h
      cases h
      refine ⟨fun _ => hc, ?_⟩
      intro q n hq hq' _ _
      simp [hq] at hq'
    · have hc' : (s.grid.get pos).clear = false := by
        revert hc; cases (s.grid.get pos).clear <;> simp
      rw [if_neg hc] at h
      have hgrid : (clearStep s pos).grid =
          s.grid.set pos { s.grid.get pos with clear := true, flag := false } := rfl
      by_cases ha : (s.grid.get pos).adjacent_mines = 0
      · rw [if_pos ha] at h
        have hnbrs : (clearStep s pos).grid.neighbors pos = s.grid.neighbors pos := by
          rw [hgrid, neighbors_set]
        rw [hnbrs] at h
        have hfoldFrame : Frame (clearStep s pos) r :=
          foldlM_option_rel frame_refl (fun _ _ _ => frame_trans)
            (fun gc a r' h' => frame_dccF _ _ _ _ h') _ _ _ h
        constructor
        · intro hpos
          have h1 : ((clearStep s pos).grid.get pos).clear = true := by
            rw [hgrid, get_set_self _ hWf hpos]
          rw [hfoldFrame.clear_keep pos h1]
          exact h1
        · have hfold : ∀ (l : List Pos), (∀ n ∈ l, n ∈ s.grid.neighbors pos) →
              ∀ gc : GameState, Frame s gc →
              (∀ q n, (gc.grid.get q).clear = true → (s.grid.get q).clear = false →
                (s.grid.get q).adjacent_mines = 0 → n ∈ s.grid.neighbors q →
                ((gc.grid.get n).clear = true ∨ (q = pos ∧ n ∈ l))) →
              ∀ r', l.foldlM (fun sc n => do_clear_cellF fuel sc n) gc = some r' →
              (∀ q n, (r'.grid.get q).clear = true → (s.grid.get q).clear = false →
                (s.grid.get q).adjacent_mines = 0 → n ∈ s.grid.neighbors q →
                (r'.grid.get n).clear = true) := by
            intro l
            induction l with
            | nil =>
              intro _ gc _ hinv r' hf q n hq hq' hq0 hn
              cases hf
              rcases hinv q n hq hq' hq0 hn with h1 | ⟨_, h2⟩
              · exact h1
              · cases h2
            | cons a t iht =>
              intro hsub gc hfrc hinv r' hf
              rw [List.foldlM_cons] at hf
              rcases Option.bind_eq_some.mp hf with ⟨g1, hg1, hfold1⟩
              have hfr1 : Frame gc g1 := frame_dccF _ _ _ _ hg1
              have hWfgc : gc.grid.Wf := Wf_of_frame hfrc hWf
              have hca : gc.grid.containsB a = true := by
                rw [containsB_congr hfrc.w_eq hfrc.h_eq]
                exact containsB_of_mem_neighbors (hsub a (List.mem_cons_self a t))
              refine iht (fun n hn => hsub n (List.mem_cons_of_mem a hn)) g1
                (frame_trans hfrc hfr1) ?_ r' hfold1
              intro q n hq hq' hq0 hn
              by_cases hqgc : (gc.grid.get q).clear = true
              · rcases hinv q n hqgc hq' hq0 hn with h1 | ⟨hqpos, hmem⟩
                · left
                  rw [hfr1.clear_keep n h1]
                  exact h1
                · rcases List.mem_cons.mp hmem with rfl | hmem'
                  · left
                    exact (ih gc n g1 hg1 hWfgc).1 hca
                  · right
                    exact ⟨hqpos, hmem'⟩
              · have hqgc' : (gc.grid.get q).clear = false := by
                  revert hqgc; cases (gc.grid.get q).clear <;> simp
                have hadjgc : (gc.grid.get q).adjacent_mines = 0 := by
                  rw [hfrc.adj_eq q]
                  exact hq0
                have hngc : n ∈ gc.grid.neighbors q := by
                  rw [neighbors_congr hfrc.w_eq hfrc.h_eq q]
                  exact hn
                left
                exact (ih gc a g1 hg1 hWfgc).2 q n hq hqgc' hadjgc hngc
          have hinit : ∀ q n, (((clearStep s pos)).grid.get q).clear = true →
              (s.grid.get q).clear = false → (s.grid.get q).adjacent_mines = 0 →
              n ∈ s.grid.neighbors q →
              (((clearStep s pos)).grid.get n).clear = true ∨
                (q = pos ∧ n ∈ s.grid.neighbors pos) := by
            intro q n hq hq' _ hn
            rw [hgrid] at hq
            rcases get_set_cases s.grid pos
              { s.grid.get pos with clear := true, flag := false } q with hcc | ⟨_, rfl⟩
            · rw [hcc] at hq
              simp [hq] at hq'
            · exact Or.inr ⟨rfl, hn⟩
          exact hfold _ (fun n hn => hn) (clearStep s pos) (frame_clearStep s pos hc') hinit r h
      · rw [if_neg ha] at h
        cases h
        constructor
        · intro hpos
          rw [hgrid, get_set_self _ hWf hpos]
        · intro q n hq hq' hq0 _
          rw [hgrid] at hq
          rcases get_set_cases s.grid pos
            { s.grid.get pos with clear := true, flag := false } q with hcc | ⟨_, rfl⟩
          · rw [hcc] at hq
            simp [hq] at hq'
          · exact absurd hq0 ha

lemma dccF_complete {fuel : Nat} {s : GameState} {pos : Pos} {r : GameState}
    (h : do_clear_cellF fuel s pos = some r) (hWf : s.grid.Wf)
    (hpos : s.grid.containsB pos = true) :
    ∀ q, Reach s.grid pos q → (r.grid.get q).clear = true := by
  intro q hq
  induction hq with
  | refl => exact (dccF_closed fuel s pos r h hWf).1 hpos
  | @step p n _ hcp hap hn ihs =>
    exact (dccF_closed fuel s pos r h hWf).2 p n ihs hcp hap hn

lemma reach_nonmine {g : Grid} {src q : Pos} (hcons : ConsistentCounts g)
    (hin : g.containsB src = true) (hm : (g.get src).mine = false)
    (h : Reach g src q) : (g.get q).mine = false ∧ g.containsB q = true := by
  induction h with
  | refl => exact ⟨hm, hin⟩
  | @step p n _ _ ha hn ihs =>
    obtain ⟨hpm, hpin⟩ := ihs
    have hcount : countMineNbrs g p = 0 := by
      rw [← hcons p (mem_allPositions_iff_containsB.mpr hpin) hpm, ha]
    unfold countMineNbrs at hcount
    rw [List.countP_eq_zero] at hcount
    have hnm := hcount n hn
    refine ⟨?_, containsB_of_mem_neighbors hn⟩
    revert hnm
    cases (g.get n).mine <;> simp

lemma region_props {g : Grid} {src q : Pos} (hc : (g.get src).clear = false)
    (ha : (g.get src).adjacent_mines = 0) (h : ZeroRegion g src q) :
    (g.get q).clear = false ∧ (g.get q).adjacent_mines = 0 ∧ Reach g src q := by
  induction h with
  | refl => exact ⟨hc, ha, Reach.refl⟩
  | @step p n _ hn hcn han ihs =>
    obtain ⟨hcp, hap, hrp⟩ := ihs
    exact ⟨hcn, han, Reach.step hrp hcp hap hn⟩

lemma reach_iff_region_or_border {g : Grid} {src q : Pos} (hc : (g.get src).clear = false)
    (ha : (g.get src).adjacent_mines = 0) :
    Reach g src q ↔ (ZeroRegion g src q ∨ ZeroBorder g src q) := by
  constructor
  · intro h
    induction h with
    | refl => exact Or.inl ZeroRegion.refl
    | @step p n _ hcp hap hn ihs =>
      rcases ihs with hreg | ⟨p', hreg', hn'⟩
      · exact Or.inr ⟨p, hreg, hn⟩
      · have hpreg : ZeroRegion g src p := ZeroRegion.step hreg' hn' hcp hap
        exact Or.inr ⟨p, hpreg, hn⟩
  · intro h
    rcases h with hreg | ⟨p, hreg, hn⟩
    · exact (region_props hc ha hreg).2.2
    · obtain ⟨hcp, hap, hrp⟩ := region_props hc ha hreg
      exact Reach.step hrp hcp hap hn

/-! ### Effects of game_won, game_over and the placed clear_cell branches -/

@[simp] lemma flagMines_w (g : Grid) : (flagMines g).w = g.w := rfl

@[simp] lemma flagMines_h (g : Grid) : (flagMines g).h = g.h := rfl

@[simp] lemma flagMines_length (g : Grid) : (flagMines g).cells.length = g.cells.length := by
  unfold flagMines
  simp

lemma flagMines_get (g : Grid) (q : Pos) (hWf : g.Wf) :
    (flagMines g).get q =
      if (g.get q).mine then { g.get q with flag := true } else g.get q := by
  unfold Grid.get
  rw [show (flagMines g).containsB q = g.containsB q from
    containsB_congr (flagMines_w g) (flagMines_h g) q]
  by_cases hq : g.containsB q = true
  · rw [if_pos hq, if_pos hq]
    have hidx : (flagMines g).idx q = g.idx q := by
      unfold Grid.idx
      rw [flagMines_h]
    have hlt : g.idx q < g.cells.length := idx_lt hWf hq
    rw [hidx]
    unfold flagMines
    simp only
    rw [List.getD_eq_getElem _ _ (by simpa using hlt), List.getD_eq_getElem _ _ hlt,
      List.getElem_map]
  · rw [if_neg hq, if_neg hq]
    simp

lemma flagMines_clear (g : Grid) (q : Pos) (hWf : g.Wf) :
    ((flagMines g).get q).clear = (g.get q).clear := by
  rw [flagMines_get g q hWf]
  by_cases hm : (g.get q).mine = true <;> simp [hm]

lemma flagMines_mine (g : Grid) (q : Pos) (hWf : g.Wf) :
    ((flagMines g).get q).mine = (g.get q).mine := by
  rw [flagMines_get g q hWf]
  by_cases hm : (g.get q).mine = true <;> simp [hm]

lemma flagMines_adj (g : Grid) (q : Pos) (hWf : g.Wf) :
    ((flagMines g).get q).adjacent_mines = (g.get q).adjacent_mines := by
  rw [flagMines_get g q hWf]
  by_cases hm : (g.get q).mine = true <;> simp [hm]

lemma flagMines_flag_nonmine (g : Grid) (q : Pos) (hWf : g.Wf)
    (hm : (g.get q).mine = false) : ((flagMines g).get q).flag = (g.get q).flag := by
  rw [flagMines_get g q hWf, hm]
  simp

lemma flagMines_Wf {g : Grid} (hWf : g.Wf) : (flagMines g).Wf := by
  unfold Grid.Wf at *
  simpa using hWf

/-- `clear_cell` (at any positive chord depth) on an uncleared, unflagged
cell: the branch taken by the source when the cell is fresh. -/
lemma clear_cellD_uncleared (d : Nat) (s : GameState) (pos : Pos)
    (hf : (s.grid.get pos).flag = false) (hc : (s.grid.get pos).clear = false) :
    clear_cellD (d + 1) s pos =
      if (s.grid.get pos).mine then game_over s
      else
        { (if allClearOrMine (do_clear_cell s pos).grid then game_won (do_clear_cell s pos)
           else do_clear_cell s pos) with queue_redraw := true } := by
  rw [clear_cellD]
  simp only [hf, hc, Bool.false_eq_true, if_false]

/-- `clear_cell` (at chord depth `d + 1`) on an already cleared cell
delegates to `clear_neighbors`. -/
lemma clear_cellD_cleared (d : Nat) (s : GameState) (pos : Pos)
    (hf : (s.grid.get pos).flag = false) (hc : (s.grid.get pos).clear = true) :
    clear_cellD (d + 1) s pos = clear_neighborsGo (clear_cellD d) s pos := by
  rw [clear_cellD]
  simp only [hf, hc, Bool.false_eq_true, if_false, if_true]

/-- `clear_cell` on a flagged cell is a no-op. -/
lemma clear_cellD_flagged (d : Nat) (s : GameState) (pos : Pos)
    (hf : (s.grid.get pos).flag = true) :
    clear_cellD (d + 1) s pos = s := by
  rw [clear_cellD]
  simp only [hf, if_true]

/-- Combined description of `clear_cell` on an uncleared, unflagged, non-mine
cell with a zero adjacent count: the cleared set grows by exactly the reach
set, mines are never cleared, and cascaded cells come out unflagged. -/
lemma clear_cell_placed_cascade (s : GameState) (pos : Pos)
    (hWf : s.grid.Wf) (hcons : ConsistentCounts s.grid)
    (hpos : s.grid.containsB pos = true)
    (hc : (s.grid.get pos).clear = false) (hf : (s.grid.get pos).flag = false)
    (hm : (s.grid.get pos).mine = false) :
    (∀ q, ((clear_cell_placed s pos).grid.get q).clear = true ↔
        ((s.grid.get q).clear = true ∨ Reach s.grid pos q)) ∧
    (∀ q, (s.grid.get q).mine = true →
        ((clear_cell_placed s pos).grid.get q).clear = (s.grid.get q).clear) ∧
    (∀ q, (s.grid.get q).clear = false → ((clear_cell_placed s pos).grid.get q).clear = true →
        ((clear_cell_placed s pos).grid.get q).flag = false) := by
  obtain ⟨r1, hr1⟩ := dccF_some (uncleared s.grid) s pos hWf hpos (le_refl _)
  have hdc : do_clear_cell s pos = r1 := do_clear_cell_eq_dccF hr1
  have hfr : Frame s r1 := frame_dccF _ _ _ _ hr1
  have hWf1 : r1.grid.Wf := Wf_of_frame hfr hWf
  have hsound := dccF_sound _ _ _ _ hr1
  have hcomp := dccF_complete hr1 hWf hpos
  have hcp : clear_cell_placed s pos =
      { (if allClearOrMine r1.grid then game_won r1 else r1) with queue_redraw := true } := by
    unfold clear_cell_placed
    rw [clear_cellD_uncleared 1 s pos hf hc]
    simp only [hm, Bool.false_eq_true, if_false]
    rw [hdc]
  have hclear_eq : ∀ q,
      ((clear_cell_placed s pos).grid.get q).clear = (r1.grid.get q).clear := by
    intro q
    rw [hcp]
    by_cases hwin : allClearOrMine r1.grid = true
    · rw [if_pos hwin]
      exact flagMines_clear r1.grid q hWf1
    · rw [if_neg hwin]
  refine ⟨?_, ?_, ?_⟩
  · intro q
    rw [hclear_eq q]
    constructor
    · exact hsound q
    · rintro (h1 | h2)
      · rw [hfr.clear_keep q h1]
        exact h1
      · exact hcomp q h2
  · intro q hqmine
    rw [hclear_eq q]
    by_cases hc0 : (s.grid.get q).clear = true
    · rw [hfr.clear_keep q hc0]
    · have hc0' : (s.grid.get q).clear = false := by
        revert hc0; cases (s.grid.get q).clear <;> simp
      rw [hc0']
      by_contra hcon
      have hr1c : (r1.grid.get q).clear = true := by
        revert hcon; cases (r1.grid.get q).clear <;> simp
      rcases hsound q hr1c with h1 | h2
      · rw [h1] at hc0'
        cases hc0'
      · have := (reach_nonmine hcons hpos hm h2).1
        rw [this] at hqmine
        cases hqmine
  · intro q hq0 hqc
    have hr1c : (r1.grid.get q).clear = true := by
      rw [← hclear_eq q]
      exact hqc
    have hnm : (s.grid.get q).mine = false := by
      rcases hsound q hr1c with h1 | h2
      · rw [h1] at hq0
        cases hq0
      · exact (reach_nonmine hcons hpos hm h2).1
    have hflag1 : (r1.grid.get q).flag = false := by
      rcases hfr.new_unflag q hr1c with h1 | h2
      · rw [h1] at hq0
        cases hq0
      · exact h2
    rw [hcp]
    by_cases hwin : allClearOrMine r1.grid = true
    · rw [if_pos hwin]
      show ((flagMines r1.grid).get q).flag = false
      rw [flagMines_flag_nonmine r1.grid q hWf1 (by rw [hfr.mine_eq q]; exact hnm)]
      exact hflag1
    · rw [if_neg hwin]
      exact hflag1

/-! ### Mine placement -/

lemma countMineNbrs_congr {g g2 : Grid} (hw : g.w = g2.w) (hh : g.h = g2.h)
    (hm : ∀ q, (g.get q).mine = (g2.get q).mine) (p : Pos) :
    countMineNbrs g p = countMineNbrs g2 p := by
  unfold countMineNbrs
  rw [neighbors_congr hw hh]
  apply List.countP_congr
  intro n _
  rw [hm n]

lemma mark_step_get (sc : GameState) (a q : Pos) :
    (mark_mine sc a).grid.get q = sc.grid.get q ∨
      ((mark_mine sc a).grid.get q = { sc.grid.get a with mine := true } ∧ q = a) := by
  have hgrid : (mark_mine sc a).grid = sc.grid.set a { sc.grid.get a with mine := true } := rfl
  rw [hgrid]
  rcases get_set_cases sc.grid a { sc.grid.get a with mine := true } q with hc | ⟨hc, rfl⟩
  · exact Or.inl hc
  · exact Or.inr ⟨hc, rfl⟩

lemma mark_fold_basic : ∀ (L : List Pos) (s : GameState),
    (L.foldl mark_mine s).grid.w = s.grid.w ∧
    (L.foldl mark_mine s).grid.h = s.grid.h ∧
    (L.foldl mark_mine s).grid.cells.length = s.grid.cells.length ∧
    (L.foldl mark_mine s).flags_placed = s.flags_placed ∧
    (L.foldl mark_mine s).stopped = s.stopped ∧
    (L.foldl mark_mine s).won = s.won ∧
    (L.foldl mark_mine s).placed_mines = s.placed_mines ∧
    (∀ q, ((L.foldl mark_mine s).grid.get q).flag = (s.grid.get q).flag) ∧
    (∀ q, ((L.foldl mark_mine s).grid.get q).clear = (s.grid.get q).clear) ∧
    (∀ q, ((L.foldl mark_mine s).grid.get q).adjacent_mines =
      (s.grid.get q).adjacent_mines) := by
  intro L
  induction L with
  | nil =>
    intro s
    exact ⟨rfl, rfl, rfl, rfl, rfl, rfl, rfl, fun _ => rfl, fun _ => rfl, fun _ => rfl⟩
  | cons a t ih =>
    intro s
    simp only [List.foldl_cons]
    obtain ⟨h1, h2, h3, h4, h5, h6, h7, h8, h9, h10⟩ := ih (mark_mine s a)
    have e1 : (mark_mine s a).grid.w = s.grid.w := set_w _ _ _
    have e2 : (mark_mine s a).grid.h = s.grid.h := set_h _ _ _
    have e3 : (mark_mine s a).grid.cells.length = s.grid.cells.length := set_length _ _ _
    refine ⟨h1.trans e1, h2.trans e2, h3.trans e3, h4, h5, h6, h7, ?_, ?_, ?_⟩
    all_goals intro q
    · rw [h8 q]
      rcases mark_step_get s a q with hc | ⟨hc, rfl⟩ <;> rw [hc]
    · rw [h9 q]
      rcases mark_step_get s a q with hc | ⟨hc, rfl⟩ <;> rw [hc]
    · rw [h10 q]
      rcases mark_step_get s a q with hc | ⟨hc, rfl⟩ <;> rw [hc]

lemma mark_fold_not_mem : ∀ (L : List Pos) (s : GameState) (q : Pos), q ∉ L →
    (L.foldl mark_mine s).grid.get q = s.grid.get q := by
  intro L
  induction L with
  | nil =>
    intro s q _
    rfl
  | cons a t ih =>
    intro s q hq
    have hqa : q ≠ a := fun he => hq (he ▸ List.mem_cons_self a t)
    have hqt : q ∉ t := fun he => hq (List.mem_cons_of_mem a he)
    rw [List.foldl_cons, ih (mark_mine s a) q hqt]
    exact get_set_ne _ hqa

lemma mark_fold_mem : ∀ (L : List Pos) (s : GameState) (q : Pos), q ∈ L → L.Nodup →
    s.grid.Wf → s.grid.containsB q = true →
    (L.foldl mark_mine s).grid.get q = { s.grid.get q with mine := true } := by
  intro L
  induction L with
  | nil =>
    intro s q hq
    cases hq
  | cons a t ih =>
    intro s q hq hnd hWf hcq
    have hg : (mark_mine s a).grid = s.grid.set a { s.grid.get a with mine := true } := rfl
    have hWf1 : (mark_mine s a).grid.Wf := by
      unfold Grid.Wf at *
      rw [hg, set_length, set_w, set_h]
      exact hWf
    rcases List.mem_cons.mp hq with rfl | hqt
    · have hat : q ∉ t := (List.nodup_cons.mp hnd).1
      rw [List.foldl_cons, mark_fold_not_mem t (mark_mine s q) q hat]
      exact get_set_self _ hWf hcq
    · have hqa : q ≠ a := by
        rintro rfl
        exact (List.nodup_cons.mp hnd).1 hqt
      have hc1 : (mark_mine s a).grid.containsB q = true := by
        rw [hg, containsB_set]
        exact hcq
      rw [List.foldl_cons, ih (mark_mine s a) q hqt (List.nodup_cons.mp hnd).2 hWf1 hc1, hg,
        get_set_ne _ hqa]

lemma recount_step_get (sc : GameState) (a q : Pos) :
    (recount_adjacent sc a).grid.get q = sc.grid.get q ∨
      ((recount_adjacent sc a).grid.get q =
        { sc.grid.get a with adjacent_mines := countMineNbrs sc.grid a } ∧ q = a) := by
  unfold recount_adjacent
  by_cases hm : (sc.grid.get a).mine = true
  · rw [if_pos hm]
    exact Or.inl rfl
  · rw [if_neg hm]
    rcases get_set_cases sc.grid a
      { sc.grid.get a with adjacent_mines := countMineNbrs sc.grid a } q with hc | ⟨hc, rfl⟩
    · exact Or.inl hc
    · exact Or.inr ⟨hc, rfl⟩

lemma recount_step_dims (sc : GameState) (a : Pos) :
    (recount_adjacent sc a).grid.w = sc.grid.w ∧ (recount_adjacent sc a).grid.h = sc.grid.h ∧
    (recount_adjacent sc a).grid.cells.length = sc.grid.cells.length ∧
    (recount_adjacent sc a).flags_placed = sc.flags_placed ∧
    (recount_adjacent sc a).stopped = sc.stopped ∧
    (recount_adjacent sc a).won = sc.won ∧
    (recount_adjacent sc a).placed_mines = sc.placed_mines := by
  unfold recount_adjacent
  by_cases hm : (sc.grid.get a).mine = true
  · rw [if_pos hm]
    exact ⟨rfl, rfl, rfl, rfl, rfl, rfl, rfl⟩
  · rw [if_neg hm]
    exact ⟨set_w _ _ _, set_h _ _ _, set_length _ _ _, rfl, rfl, rfl, rfl⟩

lemma recount_fold_basic : ∀ (L : List Pos) (s : GameState),
    (L.foldl recount_adjacent s).grid.w = s.grid.w ∧
    (L.foldl recount_adjacent s).grid.h = s.grid.h ∧
    (L.foldl recount_adjacent s).grid.cells.length = s.grid.cells.length ∧
    (L.foldl recount_adjacent s).flags_placed = s.flags_placed ∧
    (L.foldl recount_adjacent s).stopped = s.stopped ∧
    (L.foldl recount_adjacent s).won = s.won ∧
    (L.foldl recount_adjacent s).placed_mines = s.placed_mines ∧
    (∀ q, ((L.foldl recount_adjacent s).grid.get q).flag = (s.grid.get q).flag) ∧
    (∀ q, ((L.foldl recount_adjacent s).grid.get q).clear = (s.grid.get q).clear) ∧
    (∀ q, ((L.foldl recount_adjacent s).grid.get q).mine = (s.grid.get q).mine) := by
  intro L
  induction L with
  | nil =>
    intro s
    exact ⟨rfl, rfl, rfl, rfl, rfl, rfl, rfl, fun _ => rfl, fun _ => rfl, fun _ => rfl⟩
  | cons a t ih =>
    intro s
    simp only [List.foldl_cons]
    obtain ⟨h1, h2, h3, h4, h5, h6, h7, h8, h9, h10⟩ := ih (recount_adjacent s a)
    obtain ⟨e1, e2, e3, e4, e5, e6, e7⟩ := recount_step_dims s a
    refine ⟨h1.trans e1, h2.trans e2, h3.trans e3, h4.trans e4, h5.trans e5, h6.trans e6,
      h7.trans e7, ?_, ?_, ?_⟩
    all_goals intro q
    · rw [h8 q]
      rcases recount_step_get s a q with hc | ⟨hc, rfl⟩ <;> rw [hc]
    · rw [h9 q]
      rcases recount_step_get s a q with hc | ⟨hc, rfl⟩ <;> rw [hc]
    · rw [h10 q]
      rcases recount_step_get s a q with hc | ⟨hc, rfl⟩ <;> rw [hc]

lemma recount_fold_not_mem : ∀ (L : List Pos) (s : GameState) (q : Pos), q ∉ L →
    (L.foldl recount_adjacent s).grid.get q = s.grid.get q := by
  intro L
  induction L with
  | nil =>
    intro s q _
    rfl
  | cons a t ih =>
    intro s q hq
    have hqa : q ≠ a := fun he => hq (he ▸ List.mem_cons_self a t)
    have hqt : q ∉ t := fun he => hq (List.mem_cons_of_mem a he)
    rw [List.foldl_cons, ih (recount_adjacent s a) q hqt]
    unfold recount_adjacent
    by_cases hm : (s.grid.get a).mine = true
    · rw [if_pos hm]
    · rw [if_neg hm]
      exact get_set_ne _ hqa

lemma recount_fold_mem : ∀ (L : List Pos) (s : GameState) (q : Pos), q ∈ L → L.Nodup →
    s.grid.Wf → s.grid.containsB q = true →
    (L.foldl recount_adjacent s).grid.get q =
      (if (s.grid.get q).mine then s.grid.get q
       else { s.grid.get q with adjacent_mines := countMineNbrs s.grid q }) := by
  intro L
  induction L with
  | nil =>
    intro s q hq
    cases hq
  | cons a t ih =>
    intro s q hq hnd hWf hcq
    obtain ⟨e1, e2, e3, _, _, _, _⟩ := recount_step_dims s a
    have hWf1 : (recount_adjacent s a).grid.Wf := by
      unfold Grid.Wf at *
      rw [e1, e2, e3]
      exact hWf
    rcases List.mem_cons.mp hq with rfl | hqt
    · have hat : q ∉ t := (List.nodup_cons.mp hnd).1
      rw [List.foldl_cons, recount_fold_not_mem t (recount_adjacent s q) q hat]
      unfold recount_adjacent
      by_cases hm : (s.grid.get q).mine = true
      · rw [if_pos hm, if_pos hm]
      · rw [if_neg hm, if_neg hm]
        exact get_set_self _ hWf hcq
    · have hqa : q ≠ a := by
        rintro rfl
        exact (List.nodup_cons.mp hnd).1 hqt
      have hstep : (recount_adjacent s a).grid.get q = s.grid.get q := by
        unfold recount_adjacent
        by_cases hm : (s.grid.get a).mine = true
        · rw [if_pos hm]
        · rw [if_neg hm]
          exact get_set_ne _ hqa
      have hmines : ∀ p, ((recount_adjacent s a).grid.get p).mine = (s.grid.get p).mine := by
        intro p
        rcases recount_step_get s a p with hc | ⟨hc, rfl⟩ <;> rw [hc]
      have hc1 : (recount_adjacent s a).grid.containsB q = true := by
        rw [containsB_congr e1 e2 q]
        exact hcq
      rw [List.foldl_cons, ih (recount_adjacent s a) q hqt (List.nodup_cons.mp hnd).2 hWf1 hc1,
        hstep, countMineNbrs_congr e1 e2 hmines q]

lemma place_mines_raised {s : GameState} {pos : Pos} {n : Nat} {plist : List Pos}
    (h : (mineCandidates s.grid pos).card < n) :
    place_mines s pos n plist = (s, true) := by
  unfold place_mines
  rw [if_pos h]

lemma place_mines_eq {s : GameState} {pos : Pos} {n : Nat} {plist : List Pos}
    (h : ¬(mineCandidates s.grid pos).card < n) :
    place_mines s pos n plist =
      ({ ((allPositions ((plist.take n).foldl mark_mine s).grid.w
            ((plist.take n).foldl mark_mine s).grid.h).foldl recount_adjacent
            ((plist.take n).foldl mark_mine s)) with placed_mines := true }, false) := by
  unfold place_mines
  rw [if_neg h]

lemma mem_mineCandidates {g : Grid} {pos q : Pos} :
    q ∈ mineCandidates g pos ↔
      q ∈ allPositions g.w g.h ∧ q ≠ pos ∧ q ∉ g.neighbors pos := by
  unfold mineCandidates
  rw [Finset.mem_sdiff, Finset.mem_erase, List.mem_toFinset, List.mem_toFinset]
  tauto

lemma countP_mem_eq_length {A L : List Pos} (hA : A.Nodup) (hL : L.Nodup)
    (hsub : ∀ q ∈ L, q ∈ A) : A.countP (fun p => decide (p ∈ L)) = L.length := by
  rw [List.countP_eq_length_filter]
  have hnodupF : (A.filter (fun p => decide (p ∈ L))).Nodup := hA.filter _
  rw [← List.toFinset_card_of_nodup hnodupF, List.toFinset_filter]
  have he : A.toFinset.filter (fun x => (decide (x ∈ L)) = true) = L.toFinset := by
    ext x
    rw [Finset.mem_filter, List.mem_toFinset, List.mem_toFinset]
    simp only [decide_eq_true_eq]
    exact ⟨fun h => h.2, fun h => ⟨hsub x h, h⟩⟩
  rw [he, List.toFinset_card_of_nodup hL]

lemma fresh_get {s : GameState}
    (hfresh : ∀ it ∈ s.grid.cells, it.mine = false ∧ it.adjacent_mines = 0) (q : Pos) :
    (s.grid.get q).mine = false ∧ (s.grid.get q).adjacent_mines = 0 := by
  by_cases hq : s.grid.containsB q = true
  · unfold Grid.get
    rw [if_pos hq]
    rw [List.getD_eq_getElem?_getD]
    by_cases hl : s.grid.idx q < s.grid.cells.length
    · rw [List.getElem?_eq_getElem hl]
      exact hfresh _ (List.getElem_mem _)
    · rw [List.getElem?_eq_none (by omega)]
      exact ⟨rfl, rfl⟩
  · rw [get_oob (by revert hq; cases s.grid.containsB q <;> simp)]
    exact ⟨rfl, rfl⟩

/-- Full description of a successful `place_mines` run from a fresh board:
no exception, `placed_mines` set, the mine set is exactly the first `n`
entries of the shuffle, there are exactly `n` mines, every non-mine cell gets
the true count of mine neighbors, and mine cells keep a zero count. -/
lemma place_mines_spec (s : GameState) (pos : Pos) (n : Nat) (plist : List Pos)
    (hWf : s.grid.Wf)
    (hfresh : ∀ it ∈ s.grid.cells, it.mine = false ∧ it.adjacent_mines = 0)
    (hnd : plist.Nodup) (henum : plist.toFinset = mineCandidates s.grid pos)
    (hn : n ≤ (mineCandidates s.grid pos).card) :
    (place_mines s pos n plist).2 = false ∧
    (place_mines s pos n plist).1.placed_mines = true ∧
    (place_mines s pos n plist).1.grid.Wf ∧
    (place_mines s pos n plist).1.grid.w = s.grid.w ∧
    (place_mines s pos n plist).1.grid.h = s.grid.h ∧
    (∀ q, (((place_mines s pos n plist).1.grid.get q).mine = true ↔ q ∈ plist.take n)) ∧
    ((place_mines s pos n plist).1.grid.cells.countP (fun it => it.mine)) = n ∧
    ConsistentCounts (place_mines s pos n plist).1.grid ∧
    (∀ q, ((place_mines s pos n plist).1.grid.get q).mine = true →
      ((place_mines s pos n plist).1.grid.get q).adjacent_mines = 0) := by
  have hno : ¬(mineCandidates s.grid pos).card < n := by omega
  have hpm := @place_mines_eq s pos n plist hno
  have hLc : ∀ q ∈ plist.take n, q ∈ mineCandidates s.grid pos := by
    intro q hq
    rw [← henum, List.mem_toFinset]
    exact List.take_subset n plist hq
  have hLin : ∀ q ∈ plist.take n, s.grid.containsB q = true := by
    intro q hq
    exact mem_allPositions_iff_containsB.mp (mem_mineCandidates.mp (hLc q hq)).1
  have hLnd : (plist.take n).Nodup := (List.take_sublist n plist).nodup hnd
  have hLlen : (plist.take n).length = n := by
    have hplen : plist.length = (mineCandidates s.grid pos).card := by
      rw [← henum, List.toFinset_card_of_nodup hnd]
    rw [List.length_take]
    omega
  obtain ⟨mw, mh, mlen, _, _, _, _, mflag, mclear, madj⟩ :=
    mark_fold_basic (plist.take n) s
  have hWf1 : ((plist.take n).foldl mark_mine s).grid.Wf := by
    unfold Grid.Wf at *
    rw [mw, mh, mlen]
    exact hWf
  have hmine1 : ∀ q, (((plist.take n).foldl mark_mine s).grid.get q).mine = true ↔
      q ∈ plist.take n := by
    intro q
    constructor
    · intro hq
      by_contra hmem
      rw [mark_fold_not_mem _ _ _ hmem, (fresh_get hfresh q).1] at hq
      cases hq
    · intro hmem
      rw [mark_fold_mem _ _ _ hmem hLnd hWf (hLin q hmem)]
  have hAeq : allPositions ((plist.take n).foldl mark_mine s).grid.w
      ((plist.take n).foldl mark_mine s).grid.h = allPositions s.grid.w s.grid.h := by
    rw [mw, mh]
  rw [hAeq] at hpm
  set s1 := (plist.take n).foldl mark_mine s with hs1
  obtain ⟨rw2, rh2, rlen2, _, _, _, _, rflag, rclear, rmine⟩ :=
    recount_fold_basic (allPositions s.grid.w s.grid.h) s1
  set s2 := (allPositions s.grid.w s.grid.h).foldl recount_adjacent s1 with hs2
  have hw2 : s2.grid.w = s.grid.w := rw2.trans mw
  have hh2 : s2.grid.h = s.grid.h := rh2.trans mh
  have hWf2 : s2.grid.Wf := by
    unfold Grid.Wf at *
    rw [rlen2, rw2, rh2]
    exact hWf1
  have hc1 : ∀ q, s.grid.containsB q = true → s1.grid.containsB q = true := by
    intro q hq
    rw [containsB_congr mw mh q]
    exact hq
  have hrec : ∀ q, q ∈ allPositions s.grid.w s.grid.h →
      s2.grid.get q = (if (s1.grid.get q).mine then s1.grid.get q
        else { s1.grid.get q with adjacent_mines := countMineNbrs s1.grid q }) := by
    intro q hq
    exact recount_fold_mem _ _ _ hq (nodup_allPositions _ _) hWf1
      (hc1 q (mem_allPositions_iff_containsB.mp hq))
  have hmine2 : ∀ q, (s2.grid.get q).mine = true ↔ q ∈ plist.take n := by
    intro q
    rw [rmine q]
    exact hmine1 q
  rw [hpm]
  dsimp only
  refine ⟨rfl, rfl, hWf2, hw2, hh2, hmine2, ?_, ?_, ?_⟩
  · rw [countP_cells hWf2, hw2, hh2]
    have hcongr : (allPositions s.grid.w s.grid.h).countP (fun p => (s2.grid.get p).mine) =
        (allPositions s.grid.w s.grid.h).countP (fun p => decide (p ∈ plist.take n)) := by
      apply List.countP_congr
      intro p _
      simp only [decide_eq_true_eq]
      exact hmine2 p
    rw [hcongr, countP_mem_eq_length (nodup_allPositions _ _) hLnd
      (fun q hq => mem_allPositions_iff_containsB.mpr (hLin q hq)), hLlen]
  · intro p hp hpmine
    rw [hw2, hh2] at hp
    have hm1 : (s1.grid.get p).mine = false := by
      rw [← rmine p]
      exact hpmine
    have hgp : s2.grid.get p =
        { s1.grid.get p with adjacent_mines := countMineNbrs s1.grid p } := by
      rw [hrec p hp, if_neg (by rw [hm1]; exact Bool.false_ne_true)]
    rw [hgp]
    show countMineNbrs s1.grid p = countMineNbrs s2.grid p
    exact countMineNbrs_congr rw2.symm rh2.symm (fun q => (rmine q).symm) p
  · intro q hqm
    have hq1 : (s1.grid.get q).mine = true := by
      rw [← rmine q]
      exact hqm
    have hqtake : q ∈ plist.take n := (hmine1 q).mp hq1
    have hqall : q ∈ allPositions s.grid.w s.grid.h :=
      mem_allPositions_iff_containsB.mpr (hLin q hqtake)
    have hgq : s2.grid.get q = s1.grid.get q := by
      rw [hrec q hqall, if_pos hq1]
    rw [hgq, hs1, mark_fold_mem _ _ _ hqtake hLnd hWf (hLin q hqtake)]
    exact (fresh_get hfresh q).2

/-! ### Chord clear -/

lemma all_congr_list {α : Type} (l : List α) (f g : α → Bool) (h : ∀ a ∈ l, f a = g a) :
    l.all f = l.all g := by
  induction l with
  | nil => rfl
  | cons a t ih =>
    rw [List.all_cons, List.all_cons, h a (List.mem_cons_self a t),
      ih (fun b hb => h b (List.mem_cons_of_mem a hb))]

lemma allClearOrMine_flagMines (g : Grid) :
    allClearOrMine (flagMines g) = allClearOrMine g := by
  unfold allClearOrMine flagMines
  simp only
  rw [List.all_map]
  apply all_congr_list
  intro it _
  by_cases hm : it.mine = true <;> simp [Function.comp, hm]

lemma allClearOrMine_get {g : Grid} (h : allClearOrMine g = true) (hWf : g.Wf) {q : Pos}
    (hq : g.containsB q = true) : (g.get q).clear = true ∨ (g.get q).mine = true := by
  unfold allClearOrMine at h
  rw [List.all_eq_true] at h
  have hcell := h _ (get_mem_cells hWf hq)
  revert hcell
  cases (g.get q).clear <;> cases (g.get q).mine <;> simp

lemma clear_neighborsGo_not_cleared (rec : GameState → Pos → GameState) (s : GameState)
    (pos : Pos) (hc : (s.grid.get pos).clear = false) : clear_neighborsGo rec s pos = s := by
  unfold clear_neighborsGo
  simp [hc]

lemma clear_neighborsGo_equal (rec : GameState → Pos → GameState) (s : GameState) (pos : Pos)
    (hc : (s.grid.get pos).clear = true)
    (he : countFlaggedNbrs s.grid pos = (s.grid.get pos).adjacent_mines) :
    clear_neighborsGo rec s pos = (s.grid.neighbors pos).foldl (chord_stepGo rec) s := by
  unfold clear_neighborsGo
  simp only [hc, Bool.not_true, Bool.false_eq_true, if_false, if_pos he]

lemma clear_neighborsGo_less (rec : GameState → Pos → GameState) (s : GameState) (pos : Pos)
    (hc : (s.grid.get pos).clear = true)
    (hlt : countFlaggedNbrs s.grid pos < (s.grid.get pos).adjacent_mines) :
    clear_neighborsGo rec s pos =
      highlight_cells s
        ((s.grid.neighbors pos).filter fun p =>
          !(s.grid.get p).flag && !(s.grid.get p).clear).toFinset := by
  unfold clear_neighborsGo
  simp only [hc, Bool.not_true, Bool.false_eq_true, if_false,
    if_neg (by omega : ¬countFlaggedNbrs s.grid pos = (s.grid.get pos).adjacent_mines),
    if_pos hlt]

lemma clear_neighborsGo_greater (rec : GameState → Pos → GameState) (s : GameState) (pos : Pos)
    (hc : (s.grid.get pos).clear = true)
    (hgt : (s.grid.get pos).adjacent_mines < countFlaggedNbrs s.grid pos) :
    clear_neighborsGo rec s pos =
      highlight_cells s
        ((s.grid.neighbors pos).filter fun p =>
          (s.grid.get p).flag && !(s.grid.get p).clear).toFinset := by
  unfold clear_neighborsGo
  simp only [hc, Bool.not_true, Bool.false_eq_true, if_false,
    if_neg (by omega : ¬countFlaggedNbrs s.grid pos = (s.grid.get pos).adjacent_mines),
    if_neg (by omega : ¬countFlaggedNbrs s.grid pos < (s.grid.get pos).adjacent_mines)]

lemma chord_stepGo_stopped (rec : GameState → Pos → GameState) {sc : GameState} (n : Pos)
    (h : sc.stopped = true) : chord_stepGo rec sc n = sc := by
  unfold chord_stepGo
  simp [h]

lemma chord_fold_stopped (rec : GameState → Pos → GameState) :
    ∀ (l : List Pos) (sc : GameState), sc.stopped = true →
      l.foldl (chord_stepGo rec) sc = sc := by
  intro l
  induction l with
  | nil =>
    intro sc _
    rfl
  | cons a t ih =>
    intro sc h
    rw [List.foldl_cons, chord_stepGo_stopped rec a h, ih sc h]

lemma chord_stepGo_go (rec : GameState → Pos → GameState) {sc : GameState} {n : Pos}
    (h : sc.stopped = false) (hc : (sc.grid.get n).clear = false)
    (hf : (sc.grid.get n).flag = false) : chord_stepGo rec sc n = rec sc n := by
  unfold chord_stepGo
  simp [h, hc, hf]

lemma chord_stepGo_skip (rec : GameState → Pos → GameState) {sc : GameState} {n : Pos}
    (h : sc.stopped = false)
    (hcf : ((sc.grid.get n).clear || (sc.grid.get n).flag) = true) :
    chord_stepGo rec sc n = sc := by
  unfold chord_stepGo
  simp [h, hcf]

lemma clear_cellD_one_run (gc : GameState) (a : Pos) (hWf : gc.grid.Wf)
    (hca : gc.grid.containsB a = true) (hf : (gc.grid.get a).flag = false)
    (hc : (gc.grid.get a).clear = false) (hm : (gc.grid.get a).mine = false) :
    ∃ r1 : GameState, do_clear_cell gc a = r1 ∧ Frame gc r1 ∧ (r1.grid.get a).clear = true ∧
      clear_cellD 1 gc a =
        { (if allClearOrMine r1.grid then game_won r1 else r1) with queue_redraw := true } := by
  obtain ⟨r1, hr1⟩ := dccF_some (uncleared gc.grid) gc a hWf hca (le_refl _)
  refine ⟨r1, do_clear_cell_eq_dccF hr1, frame_dccF _ _ _ _ hr1,
    (dccF_closed _ _ _ _ hr1 hWf).1 hca, ?_⟩
  rw [clear_cellD_uncleared 0 gc a hf hc]
  simp only [hm, Bool.false_eq_true, if_false]
  rw [do_clear_cell_eq_dccF hr1]

lemma chord_result_facts (r1 : GameState) (hWf : r1.grid.Wf) :
    ({ (if allClearOrMine r1.grid then game_won r1 else r1) with
        queue_redraw := true } : GameState).grid.w = r1.grid.w ∧
    ({ (if allClearOrMine r1.grid then game_won r1 else r1) with
        queue_redraw := true } : GameState).grid.h = r1.grid.h ∧
    ({ (if allClearOrMine r1.grid then game_won r1 else r1) with
        queue_redraw := true } : GameState).grid.cells.length = r1.grid.cells.length ∧
    (∀ q, (({ (if allClearOrMine r1.grid then game_won r1 else r1) with
        queue_redraw := true } : GameState).grid.get q).clear = (r1.grid.get q).clear) ∧
    (∀ q, (({ (if allClearOrMine r1.grid then game_won r1 else r1) with
        queue_redraw := true } : GameState).grid.get q).mine = (r1.grid.get q).mine) ∧
    (∀ q, (r1.grid.get q).mine = false →
      (({ (if allClearOrMine r1.grid then game_won r1 else r1) with
        queue_redraw := true } : GameState).grid.get q).flag = (r1.grid.get q).flag) ∧
    (∀ q, (r1.grid.get q).flag = true →
      (({ (if allClearOrMine r1.grid then game_won r1 else r1) with
        queue_redraw := true } : GameState).grid.get q).flag = true) ∧
    ({ (if allClearOrMine r1.grid then game_won r1 else r1) with
        queue_redraw := true } : GameState).stopped = (allClearOrMine r1.grid || r1.stopped) ∧
    allClearOrMine ({ (if allClearOrMine r1.grid then game_won r1 else r1) with
        queue_redraw := true } : GameState).grid = allClearOrMine r1.grid := by
  by_cases hwin : allClearOrMine r1.grid = true
  · rw [if_pos hwin]
    refine ⟨rfl, rfl, by simp [game_won], ?_, ?_, ?_, ?_, by simp [game_won, hwin], ?_⟩
    · intro q
      exact flagMines_clear r1.grid q hWf
    · intro q
      exact flagMines_mine r1.grid q hWf
    · intro q hq
      exact flagMines_flag_nonmine r1.grid q hWf hq
    · intro q hq
      show ((flagMines r1.grid).get q).flag = true
      rw [flagMines_get r1.grid q hWf]
      by_cases hm : (r1.grid.get q).mine = true <;> simp [hm, hq]
    · show allClearOrMine (flagMines r1.grid) = allClearOrMine r1.grid
      exact allClearOrMine_flagMines r1.grid
  · rw [if_neg hwin]
    have hb : allClearOrMine r1.grid = false := by
      revert hwin; cases allClearOrMine r1.grid <;> simp
    refine ⟨rfl, rfl, rfl, fun _ => rfl, fun _ => rfl, fun _ _ => rfl, fun _ hq => hq, ?_, rfl⟩
    rw [hb]
    simp

lemma flag_back_of_frame {gc r1 : GameState} (hfr : Frame gc r1) {q : Pos}
    (h : (r1.grid.get q).flag = true) : (gc.grid.get q).flag = true := by
  by_cases hc : (r1.grid.get q).clear = true
  · rcases hfr.new_unflag q hc with hg | hflag
    · rw [← hfr.clear_keep q hg]
      exact h
    · rw [h] at hflag
      cases hflag
  · have hc' : (r1.grid.get q).clear = false := by
      revert hc; cases (r1.grid.get q).clear <;> simp
    rw [← hfr.unclear_keep q hc']
    exact h

lemma chord_fold_clears (s : GameState) (pos : Pos)
    (hsafe : ∀ m ∈ s.grid.neighbors pos, (s.grid.get m).flag = false →
      (s.grid.get m).clear = false → (s.grid.get m).mine = false) :
    ∀ (l : List Pos), (∀ n ∈ l, n ∈ s.grid.neighbors pos) →
    ∀ gc : GameState,
      gc.grid.Wf → gc.grid.w = s.grid.w → gc.grid.h = s.grid.h →
      (∀ q, (gc.grid.get q).mine = (s.grid.get q).mine) →
      (∀ q, (s.grid.get q).clear = true → (gc.grid.get q).clear = true) →
      (∀ q, (s.grid.get q).flag = true →
        ((gc.grid.get q).flag = true ∨ (gc.grid.get q).clear = true)) →
      (∀ q, (s.grid.get q).mine = false → (gc.grid.get q).flag = true →
        (s.grid.get q).flag = true) →
      (gc.stopped = true → allClearOrMine gc.grid = true) →
      (∀ m ∈ s.grid.neighbors pos, (s.grid.get m).flag = false → (s.grid.get m).clear = false →
        ((gc.grid.get m).clear = true ∨ m ∈ l)) →
      ∀ m ∈ s.grid.neighbors pos, (s.grid.get m).flag = false → (s.grid.get m).clear = false →
        ((l.foldl (chord_stepGo (clear_cellD 1)) gc).grid.get m).clear = true := by
  intro l
  induction l with
  | nil =>
    intro _ gc _ _ _ _ _ _ _ _ hQ m hmem hmf hmc
    rcases hQ m hmem hmf hmc with h1 | h2
    · exact h1
    · cases h2
  | cons a t iht =>
    intro hsub gc hWfc hwc hhc hminec hclmono hflagp hflagb hstopc hQ
    have hconts : ∀ p : Pos, s.grid.containsB p = true → gc.grid.containsB p = true := by
      intro p hp
      rw [containsB_congr hwc hhc p]
      exact hp
    rw [List.foldl_cons]
    by_cases hstop : gc.stopped = true
    · rw [chord_stepGo_stopped _ a hstop]
      refine iht (fun n hn => hsub n (List.mem_cons_of_mem a hn)) gc hWfc hwc hhc hminec
        hclmono hflagp hflagb hstopc ?_
      intro m hmem hmf hmc
      rcases hQ m hmem hmf hmc with h1 | h2
      · exact Or.inl h1
      · rcases List.mem_cons.mp h2 with rfl | hmt
        · left
          have hall := hstopc hstop
          have hcm : gc.grid.containsB m = true :=
            hconts m (containsB_of_mem_neighbors hmem)
          rcases allClearOrMine_get hall hWfc hcm with hcl | hmn
          · exact hcl
          · rw [hminec m, hsafe m hmem hmf hmc] at hmn
            cases hmn
        · exact Or.inr hmt
    · have hstop' : gc.stopped = false := by
        revert hstop; cases gc.stopped <;> simp
      by_cases hguard : ((gc.grid.get a).clear || (gc.grid.get a).flag) = true
      · rw [chord_stepGo_skip _ hstop' hguard]
        refine iht (fun n hn => hsub n (List.mem_cons_of_mem a hn)) gc hWfc hwc hhc hminec
          hclmono hflagp hflagb hstopc ?_
        intro m hmem hmf hmc
        rcases hQ m hmem hmf hmc with h1 | h2
        · exact Or.inl h1
        · rcases List.mem_cons.mp h2 with rfl | hmt
          · left
            rcases Bool.or_eq_true_iff.mp hguard with hcl | hfl
            · exact hcl
            · have hcontra := hflagb m (hsafe m hmem hmf hmc) hfl
              rw [hcontra] at hmf
              cases hmf
          · exact Or.inr hmt
      · have hcga : (gc.grid.get a).clear = false := by
          revert hguard; cases (gc.grid.get a).clear <;> simp
        have hfga : (gc.grid.get a).flag = false := by
          revert hguard; cases (gc.grid.get a).flag <;> simp
        have hamem : a ∈ s.grid.neighbors pos := hsub a (List.mem_cons_self a t)
        have hcsa : s.grid.containsB a = true := containsB_of_mem_neighbors hamem
        have hcga' : gc.grid.containsB a = true := hconts a hcsa
        have hsfa : (s.grid.get a).flag = false := by
          by_contra hx
          have hx' : (s.grid.get a).flag = true := by
            revert hx; cases (s.grid.get a).flag <;> simp
          rcases hflagp a hx' with h1 | h2
          · rw [h1] at hfga
            cases hfga
          · rw [h2] at hcga
            cases hcga
        have hsca : (s.grid.get a).clear = false := by
          by_contra hx
          have hx' : (s.grid.get a).clear = true := by
            revert hx; cases (s.grid.get a).clear <;> simp
          rw [hclmono a hx'] at hcga
          cases hcga
        have hsma : (s.grid.get a).mine = false := hsafe a hamem hsfa hsca
        have hmga : (gc.grid.get a).mine = false := by
          rw [hminec a]
          exact hsma
        rw [chord_stepGo_go _ hstop' hcga hfga]
        obtain ⟨r1, hdc, hfr, hra, hcc1⟩ := clear_cellD_one_run gc a hWfc hcga' hfga hcga hmga
        have hWfr1 : r1.grid.Wf := Wf_of_frame hfr hWfc
        obtain ⟨cw, ch, clen, cclear, cmine, cflagnm, cflagkeep, cstop, callcm⟩ :=
          chord_result_facts r1 hWfr1
        rw [hcc1]
        refine iht (fun n hn => hsub n (List.mem_cons_of_mem a hn)) _ ?_ ?_ ?_ ?_ ?_ ?_ ?_ ?_ ?_
        · unfold Grid.Wf
          rw [clen, cw, ch]
          exact hWfr1
        · rw [cw, hfr.w_eq, hwc]
        · rw [ch, hfr.h_eq, hhc]
        · intro q
          rw [cmine q, hfr.mine_eq q, hminec q]
        · intro q hq
          rw [cclear q]
          have hgq := hclmono q hq
          rw [hfr.clear_keep q hgq]
          exact hgq
        · intro q hq
          rcases hflagp q hq with h1 | h2
          · by_cases hr1c : (r1.grid.get q).clear = true
            · right
              rw [cclear q]
              exact hr1c
            · left
              have hr1c' : (r1.grid.get q).clear = false := by
                revert hr1c; cases (r1.grid.get q).clear <;> simp
              have : (r1.grid.get q).flag = true := by
                rw [hfr.unclear_keep q hr1c']
                exact h1
              exact cflagkeep q this
          · right
            rw [cclear q, hfr.clear_keep q h2]
            exact h2
        · intro q hqm hqf
          have hm1 : (r1.grid.get q).mine = false := by
            rw [hfr.mine_eq q, hminec q]
            exact hqm
          rw [cflagnm q hm1] at hqf
          exact hflagb q hqm (flag_back_of_frame hfr hqf)
        · intro hst
          rw [cstop] at hst
          rcases Bool.or_eq_true_iff.mp hst with h1 | h2
          · rw [callcm]
            exact h1
          · rw [hfr.stopped_eq, hstop'] at h2
            cases h2
        · intro m hmem hmf hmc
          rcases hQ m hmem hmf hmc with h1 | h2
          · left
            rw [cclear m, hfr.clear_keep m h1]
            exact h1
          · rcases List.mem_cons.mp h2 with rfl | hmt
            · left
              rw [cclear m]
              exact hra
            · exact Or.inr hmt

lemma chord_fold_mine_stop (s : GameState) (pos : Pos)
    (hc : (s.grid.get pos).clear = true)
    (he : countFlaggedNbrs s.grid pos = (s.grid.get pos).adjacent_mines)
    (l1 : List Pos) (n : Pos) (l2 : List Pos)
    (hsplit : s.grid.neighbors pos = l1 ++ n :: l2)
    (hgs : (l1.foldl (chord_stepGo (clear_cellD 1)) s).stopped = false)
    (hnf : ((l1.foldl (chord_stepGo (clear_cellD 1)) s).grid.get n).flag = false)
    (hnc : ((l1.foldl (chord_stepGo (clear_cellD 1)) s).grid.get n).clear = false)
    (hnm : ((l1.foldl (chord_stepGo (clear_cellD 1)) s).grid.get n).mine = true) :
    clear_neighbors s pos = game_over (l1.foldl (chord_stepGo (clear_cellD 1)) s) := by
  unfold clear_neighbors
  rw [clear_neighborsGo_equal _ _ _ hc he, hsplit, List.foldl_append, List.foldl_cons,
    chord_stepGo_go _ hgs hnc hnf]
  have hone : clear_cellD 1 (l1.foldl (chord_stepGo (clear_cellD 1)) s) n =
      game_over (l1.foldl (chord_stepGo (clear_cellD 1)) s) := by
    rw [clear_cellD_uncleared 0 _ _ hnf hnc, if_pos hnm]
  rw [hone, chord_fold_stopped _ l2 _ rfl]

/-! ### The flag counter invariant -/

lemma countFlags_congr {g g2 : Grid} (hw : g.w = g2.w) (hh : g.h = g2.h)
    (hWf : g.Wf) (hWf2 : g2.Wf) (hf : ∀ q, (g.get q).flag = (g2.get q).flag) :
    countFlags g = countFlags g2 := by
  unfold countFlags
  rw [countP_cells hWf, countP_cells hWf2, ← hw, ← hh]
  apply List.countP_congr
  intro p _
  rw [hf p]

lemma countFlags_freshGrid (w h : Nat) : countFlags (freshGrid w h) = 0 := by
  unfold countFlags freshGrid
  rw [List.countP_eq_zero]
  intro a ha
  rw [List.eq_of_mem_replicate ha]
  simp

lemma Wf_freshGrid (w h : Nat) : (freshGrid w h).Wf := by
  unfold Grid.Wf freshGrid
  simp

lemma countFlags_flagMines_ge (g : Grid) : countFlags g ≤ countFlags (flagMines g) := by
  unfold countFlags flagMines
  simp only
  rw [List.countP_map]
  apply List.countP_mono_left
  intro it _ hflag
  simp only [Function.comp_apply]
  by_cases hm : it.mine = true <;> simp [hm, hflag]

lemma flagInv_game_over {s : GameState} (hstop : s.stopped = false) (h : FlagInv s) :
    FlagInv (game_over s) := by
  obtain ⟨heq, _⟩ := h
  have he := heq (by rintro ⟨h1, _⟩; rw [hstop] at h1; cases h1)
  constructor
  · intro _
    exact he
  · rintro ⟨_, hw⟩
    cases hw

lemma flagInv_game_won {s : GameState} (hstop : s.stopped = false) (h : FlagInv s) :
    FlagInv (game_won s) := by
  obtain ⟨heq, _⟩ := h
  have he := heq (by rintro ⟨h1, _⟩; rw [hstop] at h1; cases h1)
  constructor
  · intro hnot
    exact absurd ⟨rfl, rfl⟩ hnot
  · intro _
    show s.flags_placed ≤ (countFlags (flagMines s.grid) : Int)
    rw [he]
    exact_mod_cast countFlags_flagMines_ge s.grid

lemma flagInv_do_clear {s : GameState} (pos : Pos) (hstop : s.stopped = false)
    (hWf : s.grid.Wf) (h : FlagInv s) :
    FlagInv (do_clear_cell s pos) ∧ (do_clear_cell s pos).grid.Wf ∧
    (do_clear_cell s pos).stopped = false ∧ (do_clear_cell s pos).won = s.won := by
  unfold do_clear_cell
  cases hr : do_clear_cellF (uncleared s.grid + 1) s pos with
  | none => exact ⟨h, hWf, hstop, rfl⟩
  | some r =>
    have hfr := frame_dccF _ _ _ _ hr
    have hsr : (Option.getD (some r) s) = r := rfl
    rw [hsr]
    have heq := h.1 (by rintro ⟨h1, _⟩; rw [hstop] at h1; cases h1)
    refine ⟨⟨?_, ?_⟩, Wf_of_frame hfr hWf, hfr.stopped_eq.trans hstop, hfr.won_eq⟩
    · intro _
      have hl := hfr.ledger
      omega
    · rintro ⟨h1, _⟩
      rw [hfr.stopped_eq, hstop] at h1
      cases h1

lemma flagInv_chord_result {r1 : GameState} (hstop : r1.stopped = false)
    (hWf : r1.grid.Wf) (h : FlagInv r1) :
    FlagInv ({ (if allClearOrMine r1.grid then game_won r1 else r1) with
      queue_redraw := true }) ∧
    ({ (if allClearOrMine r1.grid then game_won r1 else r1) with
      queue_redraw := true } : GameState).grid.Wf := by
  by_cases hwin : allClearOrMine r1.grid = true
  · rw [if_pos hwin]
    exact ⟨flagInv_game_won hstop h, flagMines_Wf hWf⟩
  · rw [if_neg hwin]
    exact ⟨h, hWf⟩

lemma flagInv_clear_cellD : ∀ (d : Nat) (s : GameState) (pos : Pos), s.grid.Wf →
    s.stopped = false → FlagInv s →
    FlagInv (clear_cellD d s pos) ∧ (clear_cellD d s pos).grid.Wf := by
  intro d
  induction d with
  | zero =>
    intro s pos hWf _ hinv
    exact ⟨hinv, hWf⟩
  | succ d ih =>
    intro s pos hWf hstop hinv
    by_cases hf : (s.grid.get pos).flag = true
    · rw [clear_cellD_flagged d s pos hf]
      exact ⟨hinv, hWf⟩
    · have hf' : (s.grid.get pos).flag = false := by
        revert hf; cases (s.grid.get pos).flag <;> simp
      by_cases hc : (s.grid.get pos).clear = true
      · rw [clear_cellD_cleared d s pos hf' hc]
        rcases Nat.lt_trichotomy (countFlaggedNbrs s.grid pos)
          (s.grid.get pos).adjacent_mines with hlt | heq | hgt
        · rw [clear_neighborsGo_less _ _ _ hc hlt]
          exact ⟨hinv, hWf⟩
        · rw [clear_neighborsGo_equal _ _ _ hc heq]
          have hfold : ∀ (l : List Pos) (gc : GameState), gc.grid.Wf → FlagInv gc →
              FlagInv (l.foldl (chord_stepGo (clear_cellD d)) gc) ∧
              (l.foldl (chord_stepGo (clear_cellD d)) gc).grid.Wf := by
            intro l
            induction l with
            | nil => exact fun gc hWfc hc' => ⟨hc', hWfc⟩
            | cons a t iht =>
              intro gc hWfc hinvc
              rw [List.foldl_cons]
              by_cases hstopc : gc.stopped = true
              · rw [chord_stepGo_stopped _ a hstopc]
                exact iht gc hWfc hinvc
              · have hstopc' : gc.stopped = false := by
                  revert hstopc; cases gc.stopped <;> simp
                by_cases hguard : ((gc.grid.get a).clear || (gc.grid.get a).flag) = true
                · rw [chord_stepGo_skip _ hstopc' hguard]
                  exact iht gc hWfc hinvc
                · have hcga : (gc.grid.get a).clear = false := by
                    revert hguard; cases (gc.grid.get a).clear <;> simp
                  have hfga : (gc.grid.get a).flag = false := by
                    revert hguard; cases (gc.grid.get a).flag <;> simp
                  rw [chord_stepGo_go _ hstopc' hcga hfga]
                  obtain ⟨h1, h2⟩ := ih gc a hWfc hstopc' hinvc
                  exact iht _ h2 h1
          exact hfold (s.grid.neighbors pos) s hWf hinv
        · rw [clear_neighborsGo_greater _ _ _ hc hgt]
          exact ⟨hinv, hWf⟩
      · have hc' : (s.grid.get pos).clear = false := by
          revert hc; cases (s.grid.get pos).clear <;> simp
        rw [clear_cellD_uncleared d s pos hf' hc']
        by_cases hm : (s.grid.get pos).mine = true
        · rw [if_pos hm]
          exact ⟨flagInv_game_over hstop hinv, hWf⟩
        · rw [if_neg hm]
          obtain ⟨hinv1, hWf1, hstop1, _⟩ := flagInv_do_clear pos hstop hWf hinv
          exact flagInv_chord_result hstop1 hWf1 hinv1

lemma flag_cell_cleared (s : GameState) (pos : Pos) (hc : (s.grid.get pos).clear = true) :
    flag_cell s pos = s := by
  unfold flag_cell
  simp only [hc, if_true]

lemma flag_cell_uncleared (s : GameState) (pos : Pos) (hc : (s.grid.get pos).clear = false) :
    flag_cell s pos =
      { s with
        flags_placed := if (s.grid.get pos).flag then s.flags_placed - 1
          else s.flags_placed + 1,
        grid := s.grid.set pos { s.grid.get pos with flag := !(s.grid.get pos).flag },
        queue_redraw := true } := by
  unfold flag_cell
  simp only [hc, Bool.false_eq_true, if_false]

lemma flagInv_flag_cell {s : GameState} {pos : Pos} (hWf : s.grid.Wf)
    (hpos : s.grid.containsB pos = true) (h : FlagInv s) :
    FlagInv (flag_cell s pos) ∧ (flag_cell s pos).grid.Wf := by
  by_cases hc : (s.grid.get pos).clear = true
  · rw [flag_cell_cleared s pos hc]
    exact ⟨h, hWf⟩
  · have hc' : (s.grid.get pos).clear = false := by
      revert hc; cases (s.grid.get pos).clear <;> simp
    rw [flag_cell_uncleared s pos hc']
    have hl : s.grid.idx pos < s.grid.cells.length := idx_lt hWf hpos
    have hkey := countP_set_list s.grid.cells (s.grid.idx pos)
      { s.grid.get pos with flag := !(s.grid.get pos).flag } (fun it => it.flag) hl
    rw [← get_eq_getD hpos] at hkey
    refine ⟨⟨?_, ?_⟩, Wf_set _ _ _ hWf⟩
    · intro hns
      have heq := h.1 hns
      show (if (s.grid.get pos).flag = true then s.flags_placed - 1 else s.flags_placed + 1) =
        (countFlags (s.grid.set pos
          { s.grid.get pos with flag := !(s.grid.get pos).flag }) : Int)
      unfold countFlags at heq ⊢
      rw [set_cells_of_containsB hpos]
      by_cases hfl : (s.grid.get pos).flag = true
      · simp only [hfl, Bool.not_true, if_true] at hkey ⊢
        simp at hkey
        omega
      · have hfl' : (s.grid.get pos).flag = false := by
          revert hfl; cases (s.grid.get pos).flag <;> simp
        simp only [hfl', Bool.not_false, Bool.false_eq_true, if_false] at hkey ⊢
        simp at hkey
        omega
    · intro hsw
      have hle := h.2 hsw
      show (if (s.grid.get pos).flag = true then s.flags_placed - 1 else s.flags_placed + 1) ≤
        (countFlags (s.grid.set pos
          { s.grid.get pos with flag := !(s.grid.get pos).flag }) : Int)
      unfold countFlags at hle ⊢
      rw [set_cells_of_containsB hpos]
      by_cases hfl : (s.grid.get pos).flag = true
      · simp only [hfl, Bool.not_true, if_true] at hkey ⊢
        simp at hkey
        omega
      · have hfl' : (s.grid.get pos).flag = false := by
          revert hfl; cases (s.grid.get pos).flag <;> simp
        simp only [hfl', Bool.not_false, Bool.false_eq_true, if_false] at hkey ⊢
        simp at hkey
        omega

lemma flagInv_place_mines {s : GameState} (pos : Pos) (n : Nat) (plist : List Pos)
    (hWf : s.grid.Wf) (h : FlagInv s) :
    FlagInv (place_mines s pos n plist).1 ∧ (place_mines s pos n plist).1.grid.Wf ∧
    (place_mines s pos n plist).1.stopped = s.stopped := by
  by_cases hcard : (mineCandidates s.grid pos).card < n
  · rw [place_mines_raised hcard]
    exact ⟨h, hWf, rfl⟩
  · rw [place_mines_eq hcard]
    obtain ⟨mw, mh, mlen, mfp, mst, mwon, _, mflag, _, _⟩ :=
      mark_fold_basic (plist.take n) s
    have hWf1 : ((plist.take n).foldl mark_mine s).grid.Wf := by
      unfold Grid.Wf at *
      rw [mw, mh, mlen]
      exact hWf
    obtain ⟨rw2, rh2, rlen2, rfp, rst, rwon, _, rflag, _, _⟩ :=
      recount_fold_basic (allPositions ((plist.take n).foldl mark_mine s).grid.w
        ((plist.take n).foldl mark_mine s).grid.h) ((plist.take n).foldl mark_mine s)
    have hWf2 : ((allPositions ((plist.take n).foldl mark_mine s).grid.w
        ((plist.take n).foldl mark_mine s).grid.h).foldl recount_adjacent
        ((plist.take n).foldl mark_mine s)).grid.Wf := by
      unfold Grid.Wf at *
      rw [rlen2, rw2, rh2]
      exact hWf1
    have hcf : countFlags ((allPositions ((plist.take n).foldl mark_mine s).grid.w
        ((plist.take n).foldl mark_mine s).grid.h).foldl recount_adjacent
        ((plist.take n).foldl mark_mine s)).grid = countFlags s.grid := by
      apply countFlags_congr (rw2.trans mw) (rh2.trans mh) hWf2 hWf
      intro q
      rw [rflag q, mflag q]
    refine ⟨⟨?_, ?_⟩, hWf2, ?_⟩
    · intro hns
      show ((allPositions ((plist.take n).foldl mark_mine s).grid.w
        ((plist.take n).foldl mark_mine s).grid.h).foldl recount_adjacent
        ((plist.take n).foldl mark_mine s)).flags_placed = _
      rw [rfp, mfp, hcf]
      apply h.1
      rintro ⟨h1, h2⟩
      exact hns ⟨(rst.trans mst) ▸ h1, (rwon.trans mwon) ▸ h2⟩
    · rintro ⟨h1, h2⟩
      show ((allPositions ((plist.take n).foldl mark_mine s).grid.w
        ((plist.take n).foldl mark_mine s).grid.h).foldl recount_adjacent
        ((plist.take n).foldl mark_mine s)).flags_placed ≤ _
      rw [rfp, mfp, hcf]
      refine h.2 ⟨?_, ?_⟩
      · rw [← mst, ← rst]
        exact h1
      · rw [← mwon, ← rwon]
        exact h2
    · show ((allPositions ((plist.take n).foldl mark_mine s).grid.w
        ((plist.take n).foldl mark_mine s).grid.h).foldl recount_adjacent
        ((plist.take n).foldl mark_mine s)).stopped = s.stopped
      rw [rst, mst]

lemma flagInv_clear_cell {s : GameState} (pos : Pos) (plist : List Pos)
    (hWf : s.grid.Wf) (hstop : s.stopped = false) (h : FlagInv s) :
    FlagInv (clear_cell s pos plist).1 ∧ (clear_cell s pos plist).1.grid.Wf := by
  unfold clear_cell
  by_cases hp : s.placed_mines = true
  · simp only [hp, Bool.not_true, Bool.false_eq_true, if_false]
    exact flagInv_clear_cellD 2 s pos hWf hstop h
  · have hp' : s.placed_mines = false := by
      revert hp; cases s.placed_mines <;> simp
    simp only [hp', Bool.not_false, if_true]
    obtain ⟨hinv1, hWf1, hstop1⟩ := flagInv_place_mines pos s.total_mines plist hWf h
    by_cases hr : (place_mines s pos s.total_mines plist).2 = true
    · simp only [hr, if_true]
      exact ⟨hinv1, hWf1⟩
    · have hr' : (place_mines s pos s.total_mines plist).2 = false := by
        revert hr; cases (place_mines s pos s.total_mines plist).2 <;> simp
      simp only [hr', Bool.false_eq_true, if_false]
      exact flagInv_clear_cellD 2 _ pos hWf1 (hstop1.trans hstop) hinv1

lemma flagInv_start_game (cfg : Config) (s : GameState) :
    FlagInv (start_game cfg s) ∧ (start_game cfg s).grid.Wf := by
  refine ⟨⟨?_, ?_⟩, ?_⟩
  · intro _
    show (0 : Int) = (countFlags (freshGrid cfg.w cfg.h) : Int)
    rw [countFlags_freshGrid]
    rfl
  · rintro ⟨h1, _⟩
    cases h1
  · exact Wf_freshGrid cfg.w cfg.h

lemma reachable_flagInv {cfg : Config} {s : GameState} (h : Reachable cfg s) :
    FlagInv s ∧ s.grid.Wf := by
  induction h with
  | init => exact flagInv_start_game cfg _
  | flag _ _ hpos ih => exact flagInv_flag_cell ih.2 hpos ih.1
  | clear _ hstop _ ih => exact flagInv_clear_cell _ _ ih.2 hstop ih.1
  | @newg s' _ _ =>
    have hs := flagInv_start_game cfg s'
    refine ⟨⟨fun _ => hs.1.1 (by rintro ⟨h1, _⟩; cases h1), fun hsw => absurd hsw.1 ?_⟩, hs.2⟩
    show ¬((new_game cfg s').stopped = true)
    intro hx
    exact Bool.false_ne_true hx

/-! ### The input grab stack -/

lemma handle_input_top {σ : Type} (keyCb : Int → Option (Fw σ → Fw σ))
    (stack : List (Handler σ)) (cbt : Handler σ) (ch : Int) (s : Fw σ) (hch : ¬ch = -1) :
    handle_input keyCb (stack ++ [cbt]) ch s =
      (if (cbt ch s).2 then stack ++ [cbt] else stack, (cbt ch s).1) := by
  unfold handle_input
  rw [if_neg hch, List.getLast?_concat]
  simp only [List.dropLast_concat]

/-! ### Claims -/

/-- C8: the recursive cascade clear terminates for every grid and every
(in-bounds) starting position: the number of uncleared cells is at most the
grid size, and any fuel of at least `uncleared + 1` — one nesting level per
cell a nested call can newly clear, plus the entry frame — makes the
fuel-indexed flood fill return a value, namely `do_clear_cell`; the "already
cleared" check is the base case and consumes no nesting. -/
theorem C8_do_clear_cell_terminates (s : GameState) (pos : Pos) (hWf : s.grid.Wf)
    (hpos : s.grid.containsB pos = true) :
    uncleared s.grid ≤ s.grid.w * s.grid.h ∧
    ∀ fuel : Nat, uncleared s.grid + 1 ≤ fuel →
      do_clear_cellF fuel s pos = some (do_clear_cell s pos) := by
  obtain ⟨r, hr⟩ := dccF_some (uncleared s.grid) s pos hWf hpos (le_refl _)
  constructor
  · calc uncleared s.grid ≤ s.grid.cells.length := List.countP_le_length _
      _ = s.grid.w * s.grid.h := hWf
  · intro fuel hfuel
    rw [do_clear_cell_eq_dccF hr]
    exact dccF_mono_le hfuel hr

/-- Witness for C8 on a concrete 2 by 1 board. -/
theorem C8_witness :
    exC8.grid.Wf ∧ exC8.grid.containsB ((0 : Int), (0 : Int)) = true ∧
    uncleared exC8.grid + 1 ≤ 3 ∧
    do_clear_cellF 3 exC8 ((0 : Int), (0 : Int)) =
      some (do_clear_cell exC8 ((0 : Int), (0 : Int))) :=
  ⟨by unfold Grid.Wf; decide, by decide, by decide,
    (C8_do_clear_cell_terminates exC8 ((0 : Int), (0 : Int)) (by unfold Grid.Wf; decide)
      (by decide)).2 3 (by decide)⟩

/-- C6: `place_mines(pos, n)` raises exactly when the candidate set (all
positions minus the clicked position minus its in-bounds neighbors) has fewer
than `n` elements, and in that case the session is returned unchanged — the
check precedes every mutation, so no cell is modified and `placed_mines`
stays as it was. -/
theorem C6_place_mines_error (s : GameState) (pos : Pos) (n : Nat) (plist : List Pos)
    (_hpos : s.grid.containsB pos = true) :
    ((place_mines s pos n plist).2 = true ↔ (mineCandidates s.grid pos).card < n) ∧
    ((place_mines s pos n plist).2 = true → (place_mines s pos n plist).1 = s) := by
  by_cases hcard : (mineCandidates s.grid pos).card < n
  · rw [place_mines_raised hcard]
    exact ⟨⟨fun _ => hcard, fun _ => rfl⟩, fun _ => rfl⟩
  · rw [place_mines_eq hcard]
    exact ⟨⟨fun h => (Bool.false_ne_true h).elim, fun h => absurd h hcard⟩,
      fun h => (Bool.false_ne_true h).elim⟩

/-- Witness for C6: on a fresh 2 by 2 board the safe zone around the corner
covers the whole board, so placing even one mine fails with the state
untouched. -/
theorem C6_witness :
    exC6.grid.containsB ((0 : Int), (0 : Int)) = true ∧
    ((place_mines exC6 ((0 : Int), (0 : Int)) 1 []).2 = true ↔
      (mineCandidates exC6.grid ((0 : Int), (0 : Int))).card < 1) ∧
    ((place_mines exC6 ((0 : Int), (0 : Int)) 1 []).2 = true →
      (place_mines exC6 ((0 : Int), (0 : Int)) 1 []).1 = exC6) :=
  ⟨by decide, (C6_place_mines_error exC6 ((0 : Int), (0 : Int)) 1 [] (by decide)).1,
    (C6_place_mines_error exC6 ((0 : Int), (0 : Int)) 1 [] (by decide)).2⟩

lemma flag_cell_facts (s : GameState) (pos : Pos) (hWf : s.grid.Wf)
    (hpos : s.grid.containsB pos = true) (hc : (s.grid.get pos).clear = false) :
    (flag_cell s pos).flags_placed =
      (if (s.grid.get pos).flag = true then s.flags_placed - 1 else s.flags_placed + 1) ∧
    (flag_cell s pos).grid.get pos =
      { s.grid.get pos with flag := !(s.grid.get pos).flag } ∧
    (flag_cell s pos).grid.Wf ∧ (flag_cell s pos).grid.containsB pos = true := by
  rw [flag_cell_uncleared s pos hc]
  exact ⟨rfl, get_set_self _ hWf hpos, Wf_set _ _ _ hWf, by rw [containsB_set]; exact hpos⟩

/-- C7 counterexample: on an uncleared cell that is already flagged, flagging
twice leaves the flag `true`, not `false` as the claim states. -/
theorem C7_counterexample :
    ¬ (∀ (s : GameState) (pos : Pos), s.grid.Wf → s.grid.containsB pos = true →
        (s.grid.get pos).clear = false →
        (flag_cell (flag_cell s pos) pos).flags_placed = s.flags_placed ∧
        ((flag_cell (flag_cell s pos) pos).grid.get pos).flag = false) := by
  intro hclaim
  have h := hclaim exC7f ((0 : Int), (0 : Int)) (by unfold Grid.Wf; decide) (by decide)
    (by decide)
  exact absurd h.2 (by decide)

/-- C7 (amended): on an uncleared cell, flagging twice restores both
`flags_placed` and the cell's flag bit to their prior values, each single
application toggling the flag and moving `flags_placed` by exactly one (down
when the cell was flagged, up when it was not); on a cleared cell `flag_cell`
is a complete no-op. -/
theorem C7_flag_toggle (s : GameState) (pos : Pos) (hWf : s.grid.Wf)
    (hpos : s.grid.containsB pos = true) :
    ((s.grid.get pos).clear = false →
      (flag_cell (flag_cell s pos) pos).flags_placed = s.flags_placed ∧
      ((flag_cell (flag_cell s pos) pos).grid.get pos).flag = (s.grid.get pos).flag ∧
      (flag_cell s pos).flags_placed =
        (if (s.grid.get pos).flag = true then s.flags_placed - 1 else s.flags_placed + 1) ∧
      ((flag_cell s pos).grid.get pos).flag = !(s.grid.get pos).flag) ∧
    ((s.grid.get pos).clear = true → flag_cell s pos = s) := by
  constructor
  · intro hc
    obtain ⟨hfp1, hget1, hWf1, hpos1⟩ := flag_cell_facts s pos hWf hpos hc
    have hc1 : ((flag_cell s pos).grid.get pos).clear = false := by
      rw [hget1]
      exact hc
    obtain ⟨hfp2, hget2, _, _⟩ := flag_cell_facts (flag_cell s pos) pos hWf1 hpos1 hc1
    have hcond : ((flag_cell s pos).grid.get pos).flag = !(s.grid.get pos).flag := by
      rw [hget1]
    refine ⟨?_, ?_, hfp1, hcond⟩
    · rw [hfp2, hcond, hfp1]
      by_cases hfl : (s.grid.get pos).flag = true
      · rw [hfl]
        simp
      · have hfl' : (s.grid.get pos).flag = false := by
          revert hfl; cases (s.grid.get pos).flag <;> simp
        rw [hfl']
        simp
    · rw [hget2]
      show (!((flag_cell s pos).grid.get pos).flag) = (s.grid.get pos).flag
      rw [hcond, Bool.not_not]
  · exact flag_cell_cleared s pos

/-- Witness for C7 on a fresh single-cell board. -/
theorem C7_witness :
    exC7.grid.Wf ∧ exC7.grid.containsB ((0 : Int), (0 : Int)) = true ∧
    ((exC7.grid.get ((0 : Int), (0 : Int))).clear = false →
      (flag_cell (flag_cell exC7 ((0 : Int), (0 : Int))) ((0 : Int), (0 : Int))).flags_placed =
        exC7.flags_placed ∧
      ((flag_cell (flag_cell exC7 ((0 : Int), (0 : Int)))
          ((0 : Int), (0 : Int))).grid.get ((0 : Int), (0 : Int))).flag =
        (exC7.grid.get ((0 : Int), (0 : Int))).flag ∧
      (flag_cell exC7 ((0 : Int), (0 : Int))).flags_placed =
        (if (exC7.grid.get ((0 : Int), (0 : Int))).flag = true then exC7.flags_placed - 1
         else exC7.flags_placed + 1) ∧
      ((flag_cell exC7 ((0 : Int), (0 : Int))).grid.get ((0 : Int), (0 : Int))).flag =
        !(exC7.grid.get ((0 : Int), (0 : Int))).flag) :=
  ⟨by unfold Grid.Wf; decide, by decide,
    (C7_flag_toggle exC7 ((0 : Int), (0 : Int)) (by unfold Grid.Wf; decide) (by decide)).1⟩

/-- C10: clearing an uncleared, unflagged mine cell with mines placed stops
the game as lost while leaving the grid, the flag counter and every other
session field untouched — only `stopped`, `won`, the grab stack depth and the
redraw flag change, and no exception is raised. -/
theorem C10_mine_clear_frame (s : GameState) (pos : Pos) (plist : List Pos)
    (hpm : s.placed_mines = true) (hm : (s.grid.get pos).mine = true)
    (hf : (s.grid.get pos).flag = false) (hc : (s.grid.get pos).clear = false) :
    clear_cell s pos plist =
      ({ s with stopped := true, won := false, grabCount := s.grabCount + 1, queue_redraw := true }, false) := by
  have h1 : clear_cell s pos plist = (game_over s, false) := by
    unfold clear_cell
    simp only [hpm, Bool.not_true, Bool.false_eq_true, if_false]
    show (clear_cell_placed s pos, false) = _
    unfold clear_cell_placed
    rw [clear_cellD_uncleared 1 s pos hf hc, if_pos hm]
  rw [h1]
  rfl

/-- Witness for C10 on a 2 by 1 board with a mine on the right. -/
theorem C10_witness :
    exC10.placed_mines = true ∧ (exC10.grid.get ((1 : Int), (0 : Int))).mine = true ∧
    clear_cell exC10 ((1 : Int), (0 : Int)) [] =
      ({ exC10 with stopped := true, won := false, grabCount := exC10.grabCount + 1, queue_redraw := true }, false) :=
  ⟨by decide, by decide,
    C10_mine_clear_frame exC10 ((1 : Int), (0 : Int)) [] (by decide) (by decide) (by decide)
      (by decide)⟩

/-- C9: with a confirmation handler on top of the grab stack, delivering
`'y'` (code 121) invokes the callback exactly once, clears the prompt message
and pops the handler, restoring the stack to what it was before the push;
delivering any other key pops the handler without invoking the callback. -/
theorem C9_confirmation_prompt {σ : Type} (keyCb : Int → Option (Fw σ → Fw σ))
    (stack : List (Handler σ)) (cb : Fw σ → Fw σ) (ch : Int) (s : Fw σ) (hch : ¬ch = -1) :
    (ch = 121 → handle_input keyCb (grab_input stack (confirm_callback cb)) ch s =
      (stack, clear_message (cb s))) ∧
    (¬ch = 121 → handle_input keyCb (grab_input stack (confirm_callback cb)) ch s =
      (stack, clear_message s)) := by
  have h := handle_input_top keyCb stack (confirm_callback cb) ch s hch
  constructor
  · intro hy
    unfold grab_input
    rw [h]
    unfold confirm_callback
    simp [hy]
  · intro hn
    unfold grab_input
    rw [h]
    unfold confirm_callback
    simp [hn]

/-- Witness for C9: sending `'n'` (code 110) to a pushed confirmation handler
runs no callback and leaves the stack empty again. -/
theorem C9_witness :
    ¬(110 : Int) = -1 ∧ ¬(110 : Int) = 121 ∧
    handle_input (fun _ => none) (grab_input ([] : List (Handler Nat)) (confirm_callback
        (fun f : Fw Nat => { f with inner := f.inner + 1 }))) 110 ⟨0, false, false, false⟩ =
      ([], clear_message ⟨0, false, false, false⟩) :=
  ⟨by decide, by decide,
    (C9_confirmation_prompt (fun _ => none) []
      (fun f : Fw Nat => { f with inner := f.inner + 1 }) 110 ⟨0, false, false, false⟩
      (by decide)).2 (by decide)⟩

/-- C2 counterexample: the cascade does clear flagged cells.  On a mine-free
3 by 1 board whose right cell is flagged, clearing the left cell flood-fills
through the board and clears the flagged cell, so "never clears a flagged
cell" fails. -/
theorem C2_counterexample :
    ¬ (∀ (s : GameState) (pos : Pos), s.grid.Wf → ConsistentCounts s.grid →
        s.grid.containsB pos = true → (s.grid.get pos).clear = false →
        (s.grid.get pos).flag = false → (s.grid.get pos).mine = false →
        (s.grid.get pos).adjacent_mines = 0 →
        ∀ q, (s.grid.get q).flag = true →
          ((clear_cell_placed s pos).grid.get q).clear = (s.grid.get q).clear) := by
  intro hclaim
  have h := hclaim exC2 ((0 : Int), (0 : Int)) (by unfold Grid.Wf; decide)
    (by unfold ConsistentCounts; decide) (by decide) (by decide) (by decide) (by decide)
    (by decide) ((2 : Int), (0 : Int)) (by decide)
  exact absurd h (by decide)

/-- C2 (amended): on a consistent board, clearing an uncleared, unflagged,
non-mine cell with a zero adjacent count clears exactly the maximal region
connected to it through uncleared zero-adjacent-mine cells, plus that
region's one-cell border (already cleared cells stay cleared); mine cells are
never cleared; and every flagged cell the cascade reaches is cleared and
automatically unflagged rather than skipped. -/
theorem C2_cascade_region (s : GameState) (pos : Pos) (hWf : s.grid.Wf)
    (hcons : ConsistentCounts s.grid) (hpos : s.grid.containsB pos = true)
    (hc : (s.grid.get pos).clear = false) (hf : (s.grid.get pos).flag = false)
    (hm : (s.grid.get pos).mine = false) (ha : (s.grid.get pos).adjacent_mines = 0) :
    (∀ q, ((clear_cell_placed s pos).grid.get q).clear = true ↔
      ((s.grid.get q).clear = true ∨ ZeroRegion s.grid pos q ∨ ZeroBorder s.grid pos q)) ∧
    (∀ q, (s.grid.get q).mine = true →
      ((clear_cell_placed s pos).grid.get q).clear = (s.grid.get q).clear) ∧
    (∀ q, (s.grid.get q).clear = false → ((clear_cell_placed s pos).grid.get q).clear = true →
      ((clear_cell_placed s pos).grid.get q).flag = false) := by
  obtain ⟨h1, h2, h3⟩ := clear_cell_placed_cascade s pos hWf hcons hpos hc hf hm
  refine ⟨?_, h2, h3⟩
  intro q
  rw [h1 q, reach_iff_region_or_border hc ha]

/-- Witness for C2 on the concrete 3 by 1 board of the counterexample. -/
theorem C2_witness :
    exC2.grid.Wf ∧ ConsistentCounts exC2.grid ∧
    exC2.grid.containsB ((0 : Int), (0 : Int)) = true ∧
    (exC2.grid.get ((0 : Int), (0 : Int))).clear = false ∧
    (exC2.grid.get ((0 : Int), (0 : Int))).flag = false ∧
    (exC2.grid.get ((0 : Int), (0 : Int))).mine = false ∧
    (exC2.grid.get ((0 : Int), (0 : Int))).adjacent_mines = 0 ∧
    ((∀ q, ((clear_cell_placed exC2 ((0 : Int), (0 : Int))).grid.get q).clear = true ↔
      ((exC2.grid.get q).clear = true ∨ ZeroRegion exC2.grid ((0 : Int), (0 : Int)) q ∨
        ZeroBorder exC2.grid ((0 : Int), (0 : Int)) q)) ∧
    (∀ q, (exC2.grid.get q).mine = true →
      ((clear_cell_placed exC2 ((0 : Int), (0 : Int))).grid.get q).clear =
        (exC2.grid.get q).clear) ∧
    (∀ q, (exC2.grid.get q).clear = false →
      ((clear_cell_placed exC2 ((0 : Int), (0 : Int))).grid.get q).clear = true →
      ((clear_cell_placed exC2 ((0 : Int), (0 : Int))).grid.get q).flag = false)) :=
  ⟨by unfold Grid.Wf; decide, by unfold ConsistentCounts; decide, by decide, by decide,
    by decide, by decide, by decide,
    C2_cascade_region exC2 ((0 : Int), (0 : Int)) (by unfold Grid.Wf; decide)
      (by unfold ConsistentCounts; decide) (by decide) (by decide) (by decide) (by decide)
      (by decide)⟩

/-- C3: chord clear on an already cleared cell.  With the flagged-neighbor
count equal to `adjacent_mines`, every neighbor that is neither cleared nor
flagged gets cleared (stated under the proviso that no such neighbor is a
mine; with a mine among them the game stops instead), and whenever the
sequential neighbor loop meets an unflagged uncleared mine before the game
has stopped, the game stops as lost right there and the remaining neighbors
are not processed; with fewer flags than `adjacent_mines` no clear bit
changes and the highlight set becomes exactly the neighbors that are neither
flagged nor cleared; with more flags, no clear bit changes and the highlight
set becomes exactly the flagged, uncleared neighbors. -/
theorem C3_chord_clear (s : GameState) (pos : Pos) (hWf : s.grid.Wf)
    (hstop : s.stopped = false) (hc : (s.grid.get pos).clear = true) :
    (countFlaggedNbrs s.grid pos = (s.grid.get pos).adjacent_mines →
      ((∀ m ∈ s.grid.neighbors pos, (s.grid.get m).flag = false →
          (s.grid.get m).clear = false → (s.grid.get m).mine = false) →
        ∀ m ∈ s.grid.neighbors pos, (s.grid.get m).flag = false →
          (s.grid.get m).clear = false →
          ((clear_neighbors s pos).grid.get m).clear = true) ∧
      (∀ (l1 : List Pos) (n : Pos) (l2 : List Pos),
        s.grid.neighbors pos = l1 ++ n :: l2 →
        (l1.foldl (chord_stepGo (clear_cellD 1)) s).stopped = false →
        ((l1.foldl (chord_stepGo (clear_cellD 1)) s).grid.get n).flag = false →
        ((l1.foldl (chord_stepGo (clear_cellD 1)) s).grid.get n).clear = false →
        ((l1.foldl (chord_stepGo (clear_cellD 1)) s).grid.get n).mine = true →
        clear_neighbors s pos =
          game_over (l1.foldl (chord_stepGo (clear_cellD 1)) s))) ∧
    (countFlaggedNbrs s.grid pos < (s.grid.get pos).adjacent_mines →
      (∀ q, ((clear_neighbors s pos).grid.get q).clear = (s.grid.get q).clear) ∧
      (clear_neighbors s pos).highlighted_cells =
        ((s.grid.neighbors pos).filter fun p =>
          !(s.grid.get p).flag && !(s.grid.get p).clear).toFinset) ∧
    ((s.grid.get pos).adjacent_mines < countFlaggedNbrs s.grid pos →
      (∀ q, ((clear_neighbors s pos).grid.get q).clear = (s.grid.get q).clear) ∧
      (clear_neighbors s pos).highlighted_cells =
        ((s.grid.neighbors pos).filter fun p =>
          (s.grid.get p).flag && !(s.grid.get p).clear).toFinset) := by
  refine ⟨?_, ?_, ?_⟩
  · intro heq
    constructor
    · intro hsafe m hmem hmf hmc
      unfold clear_neighbors
      rw [clear_neighborsGo_equal _ _ _ hc heq]
      refine chord_fold_clears s pos hsafe (s.grid.neighbors pos) (fun n hn => hn) s hWf rfl
        rfl (fun q => rfl) (fun q h => h) (fun q h => Or.inl h) (fun q _ h => h) ?_
        (fun m' hmem' _ _ => Or.inr hmem') m hmem hmf hmc
      intro hst
      rw [hstop] at hst
      cases hst
    · intro l1 n l2 hsplit hgs hnf hnc hnm
      exact chord_fold_mine_stop s pos hc heq l1 n l2 hsplit hgs hnf hnc hnm
  · intro hlt
    unfold clear_neighbors
    rw [clear_neighborsGo_less _ _ _ hc hlt]
    exact ⟨fun q => rfl, rfl⟩
  · intro hgt
    unfold clear_neighbors
    rw [clear_neighborsGo_greater _ _ _ hc hgt]
    exact ⟨fun q => rfl, rfl⟩

/-- Witness for C3 on a 3 by 1 board: the middle cell is cleared with one
adjacent mine and no flags placed, so chording highlights its two uncleared,
unflagged neighbors and clears nothing. -/
theorem C3_witness :
    exC3.grid.Wf ∧ exC3.stopped = false ∧
    (exC3.grid.get ((1 : Int), (0 : Int))).clear = true ∧
    countFlaggedNbrs exC3.grid ((1 : Int), (0 : Int)) <
      (exC3.grid.get ((1 : Int), (0 : Int))).adjacent_mines ∧
    ((∀ q, ((clear_neighbors exC3 ((1 : Int), (0 : Int))).grid.get q).clear =
        (exC3.grid.get q).clear) ∧
      (clear_neighbors exC3 ((1 : Int), (0 : Int))).highlighted_cells =
        ((exC3.grid.neighbors ((1 : Int), (0 : Int))).filter fun p =>
          !(exC3.grid.get p).flag && !(exC3.grid.get p).clear).toFinset) :=
  ⟨by unfold Grid.Wf; decide, by decide, by decide, by decide,
    (C3_chord_clear exC3 ((1 : Int), (0 : Int)) (by unfold Grid.Wf; decide) (by decide)
      (by decide)).2.1 (by decide)⟩

/-- C4: for a clear of an uncleared, unflagged, non-mine cell in a running
game, the game transitions to stopped-and-won exactly when afterwards every
cell is cleared or a mine, and on that transition every mine cell is
auto-flagged. -/
theorem C4_win_detection (s : GameState) (pos : Pos) (hWf : s.grid.Wf)
    (hstop : s.stopped = false) (hwon : s.won = false)
    (hc : (s.grid.get pos).clear = false) (hf : (s.grid.get pos).flag = false)
    (hm : (s.grid.get pos).mine = false) :
    (((clear_cell_placed s pos).stopped = true ∧ (clear_cell_placed s pos).won = true) ↔
      allClearOrMine (clear_cell_placed s pos).grid = true) ∧
    ((clear_cell_placed s pos).won = true →
      ∀ it ∈ (clear_cell_placed s pos).grid.cells, it.mine = true → it.flag = true) := by
  have hprops : (do_clear_cell s pos).stopped = false ∧ (do_clear_cell s pos).won = false := by
    unfold do_clear_cell
    cases hr : do_clear_cellF (uncleared s.grid + 1) s pos with
    | none => exact ⟨hstop, hwon⟩
    | some r =>
      have hfr := frame_dccF _ _ _ _ hr
      exact ⟨hfr.stopped_eq.trans hstop, hfr.won_eq.trans hwon⟩
  obtain ⟨hst1, hwn1⟩ := hprops
  have hcp : clear_cell_placed s pos =
      { (if allClearOrMine (do_clear_cell s pos).grid then game_won (do_clear_cell s pos)
         else do_clear_cell s pos) with queue_redraw := true } := by
    unfold clear_cell_placed
    rw [clear_cellD_uncleared 1 s pos hf hc]
    simp only [hm, Bool.false_eq_true, if_false]
  rw [hcp]
  by_cases hwin : allClearOrMine (do_clear_cell s pos).grid = true
  · rw [if_pos hwin]
    constructor
    · constructor
      · intro _
        show allClearOrMine (flagMines (do_clear_cell s pos).grid) = true
        rw [allClearOrMine_flagMines]
        exact hwin
      · intro _
        exact ⟨rfl, rfl⟩
    · intro _ it hit hmine
      obtain ⟨it0, hit0, rfl⟩ := List.mem_map.mp hit
      by_cases hm0 : it0.mine = true
      · simp [hm0]
      · have hm0' : it0.mine = false := by
          revert hm0; cases it0.mine <;> simp
        rw [hm0'] at hmine
        simp only [Bool.false_eq_true, if_false] at hmine
        rw [hm0'] at hmine
        cases hmine
  · rw [if_neg hwin]
    have hwin' : allClearOrMine (do_clear_cell s pos).grid = false := by
      revert hwin; cases allClearOrMine (do_clear_cell s pos).grid <;> simp
    constructor
    · constructor
      · rintro ⟨h1, _⟩
        have he : ({ (do_clear_cell s pos) with queue_redraw := true } : GameState).stopped =
            false := hst1
        rw [he] at h1
        cases h1
      · intro hac
        have he : allClearOrMine
            ({ (do_clear_cell s pos) with queue_redraw := true } : GameState).grid = false :=
          hwin'
        rw [he] at hac
        cases hac
    · intro hw
      have he : ({ (do_clear_cell s pos) with queue_redraw := true } : GameState).won =
          false := hwn1
      rw [he] at hw
      cases hw

/-- Witness for C4: the 2 by 1 board with one mine, where only one non-mine
cell exists; clearing it must immediately win and auto-flag the mine. -/
theorem C4_witness :
    exC4.grid.Wf ∧ exC4.stopped = false ∧ exC4.won = false ∧
    ((((clear_cell_placed exC4 ((0 : Int), (0 : Int))).stopped = true ∧
        (clear_cell_placed exC4 ((0 : Int), (0 : Int))).won = true) ↔
      allClearOrMine (clear_cell_placed exC4 ((0 : Int), (0 : Int))).grid = true) ∧
    ((clear_cell_placed exC4 ((0 : Int), (0 : Int))).won = true →
      ∀ it ∈ (clear_cell_placed exC4 ((0 : Int), (0 : Int))).grid.cells,
        it.mine = true → it.flag = true)) :=
  ⟨by unfold Grid.Wf; decide, by decide, by decide,
    C4_win_detection exC4 ((0 : Int), (0 : Int)) (by unfold Grid.Wf; decide) (by decide)
      (by decide) (by decide) (by decide) (by decide)⟩

/-- C5 counterexample: playing the 3 by 1, one-mine board to a win reaches a
state in which the mine was auto-flagged but `flags_placed` was not adjusted,
so `flags_placed` (0) differs from the number of flagged cells (1). -/
theorem C5_counterexample :
    ¬ (∀ (cfg : Config) (s : GameState), Reachable cfg s →
        s.flags_placed = (countFlags s.grid : Int)) := by
  intro hclaim
  have hreach : Reachable cfgC5
      (clear_cell (new_session cfgC5) ((0 : Int), (0 : Int)) [((2 : Int), (0 : Int))]).1 :=
    Reachable.clear Reachable.init (by decide) (by decide)
  have h := hclaim _ _ hreach
  exact absurd h (by decide)

/-- C5 (amended): in every session state reachable from a new game by the
player-facing operations, `flags_placed` equals the number of flagged cells
unless the game has been won; in a won (stopped) state the mine auto-flag can
only push the number of flagged cells above the unadjusted counter. -/
theorem C5_flag_counter (cfg : Config) (s : GameState) (h : Reachable cfg s) :
    (¬(s.stopped = true ∧ s.won = true) → s.flags_placed = (countFlags s.grid : Int)) ∧
    (s.stopped = true ∧ s.won = true → s.flags_placed ≤ (countFlags s.grid : Int)) :=
  (reachable_flagInv h).1

/-- Witness for C5 at the initial state of the 3 by 1 configuration. -/
theorem C5_witness :
    ¬((new_session cfgC5).stopped = true ∧ (new_session cfgC5).won = true) ∧
    (new_session cfgC5).flags_placed = (countFlags (new_session cfgC5).grid : Int) :=
  ⟨by decide, (C5_flag_counter cfgC5 _ Reachable.init).1 (by decide)⟩

/-- C1: from a fresh board, for any shuffle outcome whose candidate set (all
positions minus the clicked cell and its in-bounds neighbors) has at least
`n` elements, `place_mines(pos, n)` raises no error, sets `placed_mines`,
places exactly `n` mines, none of them on the clicked cell or any of its
neighbors, gives every non-mine cell the true count of mine neighbors, and
leaves `adjacent_mines = 0` on mine cells. -/
theorem C1_place_mines_correct (s : GameState) (pos : Pos) (n : Nat) (plist : List Pos)
    (hWf : s.grid.Wf)
    (hfresh : ∀ it ∈ s.grid.cells, it.mine = false ∧ it.adjacent_mines = 0)
    (hnd : plist.Nodup) (henum : plist.toFinset = mineCandidates s.grid pos)
    (hn : n ≤ (mineCandidates s.grid pos).card) :
    (place_mines s pos n plist).2 = false ∧
    (place_mines s pos n plist).1.placed_mines = true ∧
    ((place_mines s pos n plist).1.grid.cells.countP (fun it => it.mine)) = n ∧
    ((place_mines s pos n plist).1.grid.get pos).mine = false ∧
    (∀ q ∈ s.grid.neighbors pos, ((place_mines s pos n plist).1.grid.get q).mine = false) ∧
    (∀ q ∈ allPositions s.grid.w s.grid.h,
      ((place_mines s pos n plist).1.grid.get q).mine = false →
      ((place_mines s pos n plist).1.grid.get q).adjacent_mines =
        countMineNbrs (place_mines s pos n plist).1.grid q) ∧
    (∀ q, ((place_mines s pos n plist).1.grid.get q).mine = true →
      ((place_mines s pos n plist).1.grid.get q).adjacent_mines = 0) := by
  obtain ⟨h1, h2, _h3, h4, h5, h6, h7, h8, h9⟩ :=
    place_mines_spec s pos n plist hWf hfresh hnd henum hn
  have hnot : ∀ q, q = pos ∨ q ∈ s.grid.neighbors pos →
      ((place_mines s pos n plist).1.grid.get q).mine = false := by
    intro q hq
    by_contra hq'
    have hq2 : ((place_mines s pos n plist).1.grid.get q).mine = true := by
      revert hq'
      cases ((place_mines s pos n plist).1.grid.get q).mine <;> simp
    have hmem : q ∈ mineCandidates s.grid pos := by
      rw [← henum, List.mem_toFinset]
      exact List.take_subset n plist ((h6 q).mp hq2)
    obtain ⟨_, hne, hnn⟩ := mem_mineCandidates.mp hmem
    cases hq with
    | inl h => exact hne h
    | inr h => exact hnn h
  refine ⟨h1, h2, h7, hnot pos (Or.inl rfl), fun q hq => hnot q (Or.inr hq), ?_, h9⟩
  intro q hq hqm
  exact h8 q (by rw [h4, h5]; exact hq) hqm

/-- Witness for C1: the fresh 3 by 1 board, clicking the left cell with one
mine to place; the only candidate is the right cell. -/
theorem C1_witness :
    exC1.grid.Wf ∧
    (∀ it ∈ exC1.grid.cells, it.mine = false ∧ it.adjacent_mines = 0) ∧
    ([((2 : Int), (0 : Int))] : List Pos).Nodup ∧
    ([((2 : Int), (0 : Int))] : List Pos).toFinset =
      mineCandidates exC1.grid ((0 : Int), (0 : Int)) ∧
    1 ≤ (mineCandidates exC1.grid ((0 : Int), (0 : Int))).card ∧
    ((place_mines exC1 ((0 : Int), (0 : Int)) 1 [((2 : Int), (0 : Int))]).2 = false ∧
    (place_mines exC1 ((0 : Int), (0 : Int)) 1
      [((2 : Int), (0 : Int))]).1.placed_mines = true ∧
    ((place_mines exC1 ((0 : Int), (0 : Int)) 1
      [((2 : Int), (0 : Int))]).1.grid.cells.countP (fun it => it.mine)) = 1 ∧
    ((place_mines exC1 ((0 : Int), (0 : Int)) 1
      [((2 : Int), (0 : Int))]).1.grid.get ((0 : Int), (0 : Int))).mine = false ∧
    (∀ q ∈ exC1.grid.neighbors ((0 : Int), (0 : Int)),
      ((place_mines exC1 ((0 : Int), (0 : Int)) 1
        [((2 : Int), (0 : Int))]).1.grid.get q).mine = false) ∧
    (∀ q ∈ allPositions exC1.grid.w exC1.grid.h,
      ((place_mines exC1 ((0 : Int), (0 : Int)) 1
        [((2 : Int), (0 : Int))]).1.grid.get q).mine = false →
      ((place_mines exC1 ((0 : Int), (0 : Int)) 1
        [((2 : Int), (0 : Int))]).1.grid.get q).adjacent_mines =
        countMineNbrs (place_mines exC1 ((0 : Int), (0 : Int)) 1
          [((2 : Int), (0 : Int))]).1.grid q) ∧
    (∀ q, ((place_mines exC1 ((0 : Int), (0 : Int)) 1
        [((2 : Int), (0 : Int))]).1.grid.get q).mine = true →
      ((place_mines exC1 ((0 : Int), (0 : Int)) 1
        [((2 : Int), (0 : Int))]).1.grid.get q).adjacent_mines = 0)) :=
  ⟨by unfold Grid.Wf; decide, by decide, by decide, by decide, by decide,
    C1_place_mines_correct exC1 ((0 : Int), (0 : Int)) 1 [((2 : Int), (0 : Int))]
      (by unfold Grid.Wf; decide) (by decide) (by decide) (by decide) (by decide)⟩

end Mines
